import Mathlib

/-!
Shallow embedding of the Ireland_deals pipeline
(src/promo_discover.py, src/extract_deals.py, src/export_feed.py),
with theorems checking the natural-language specification's claims.

Python machine-level conventions used throughout the embedding:
* Python `str` values are Lean `String`s; character-class operations
  (`.lower()`, `.strip()`, `\s`) are modelled on the ASCII range, which is
  the range every string this pipeline manipulates lives in.
* `float` values are modelled as exact decimals (they are parsed from
  decimal text with at most seven significant digits, a range on which
  IEEE doubles are ordered exactly like the decimals they were parsed
  from); currency amounts are modelled in cents.
* Fallible Python code (uncaught exceptions) is modelled with `Except`.
-/

namespace IrelandDeals

set_option maxRecDepth 1000000

/-! ## Python string primitives -/

/-- Python whitespace for `str.strip` / `\s` (ASCII range). -/
def pyIsWs (c : Char) : Bool :=
  c = ' ' || c = '\t' || c = '\n' || c = '\x0d' || c = '\x0b' || c = '\x0c'

/-- Model of `str.strip()` on a character list. -/
def pyStripChars (l : List Char) : List Char :=
  ((l.dropWhile pyIsWs).reverse.dropWhile pyIsWs).reverse

/-- Python `str.strip()` (no argument form). -/
def pyStrip (s : String) : String := ⟨pyStripChars s.data⟩

/-- Python `str.lower()` (ASCII range). -/
def pyLower (s : String) : String := ⟨s.data.map Char.toLower⟩

/-- Python `str.upper()` (ASCII range). -/
def pyUpper (s : String) : String := ⟨s.data.map Char.toUpper⟩

/-- Python `needle in hay` substring test, on character lists. -/
def containsSub (hay needle : List Char) : Bool :=
  match hay with
  | [] => needle.isEmpty
  | _ :: t => needle.isPrefixOf hay || containsSub t needle

/-- Python `needle in hay` substring test on strings. -/
def pyContains (hay needle : String) : Bool := containsSub hay.data needle.data

/-- Python `hay.endswith(suf)`. -/
def pyEndsWith (hay suf : String) : Bool := suf.data.isSuffixOf hay.data

/-- Python `hay.startswith(p)`. -/
def pyStartsWith (hay p : String) : Bool := p.data.isPrefixOf hay.data

/-- Python slicing `s[:n]`. -/
def pyTake (s : String) (n : Nat) : String := ⟨s.data.take n⟩

/-- Worker for `pyReplace`: `skip` counts characters still to swallow from a
match already emitted. Structural recursion on the subject list so that the
kernel can evaluate it. -/
def replaceGo (old new : List Char) (skip : Nat) : List Char → List Char
  | [] => []
  | c :: rest =>
    match skip with
    | k + 1 => replaceGo old new k rest
    | 0 =>
      if old.isPrefixOf (c :: rest) then
        new ++ replaceGo old new (old.length - 1) rest
      else
        c :: replaceGo old new 0 rest

/-- Python `s.replace(old, new)` (all occurrences, left to right;
`old` is assumed non-empty, as at its single use site). -/
def pyReplace (s old new : String) : String := ⟨replaceGo old.data new.data 0 s.data⟩

/-! ## UTF-8 and SHA-1 (`hashlib.sha1(...).hexdigest()`)

SHA-1 is computed over `Nat` bytes with explicit `% 2^32` arithmetic. -/

/-- UTF-8 encoding of one character. -/
def utf8Char (c : Char) : List Nat :=
  let n := c.toNat
  if n < 0x80 then [n]
  else if n < 0x800 then [0xC0 ||| (n >>> 6), 0x80 ||| (n &&& 0x3F)]
  else if n < 0x10000 then
    [0xE0 ||| (n >>> 12), 0x80 ||| ((n >>> 6) &&& 0x3F), 0x80 ||| (n &&& 0x3F)]
  else
    [0xF0 ||| (n >>> 18), 0x80 ||| ((n >>> 12) &&& 0x3F),
     0x80 ||| ((n >>> 6) &&& 0x3F), 0x80 ||| (n &&& 0x3F)]

/-- Model of `s.encode("utf-8")` as a byte list. -/
def utf8Bytes (s : String) : List Nat := s.data.flatMap utf8Char

/-- The constant 2^32. -/
def M32 : Nat := 4294967296

/-- Rotate a 32-bit word left by `n`. -/
def rotl (n w : Nat) : Nat := ((w <<< n) ||| (w >>> (32 - n))) % M32

/-- Big-endian 8-byte encoding of the bit length. -/
def beBytes8 (n : Nat) : List Nat :=
  [(n >>> 56) &&& 255, (n >>> 48) &&& 255, (n >>> 40) &&& 255, (n >>> 32) &&& 255,
   (n >>> 24) &&& 255, (n >>> 16) &&& 255, (n >>> 8) &&& 255, n &&& 255]

/-- SHA-1 message padding to a multiple of 64 bytes. -/
def sha1Pad (msg : List Nat) : List Nat :=
  let l := msg.length
  let zeros := (119 - (l % 64)) % 64
  msg ++ 0x80 :: List.replicate zeros 0 ++ beBytes8 (8 * l)

/-- Worker for `chunks64`: `cur` holds the current block reversed. -/
def chunks64Go (cur : List Nat) : List Nat → List (List Nat)
  | [] => if cur.isEmpty then [] else [cur.reverse]
  | b :: rest =>
    let cur' := b :: cur
    if cur'.length = 64 then cur'.reverse :: chunks64Go [] rest
    else chunks64Go cur' rest

/-- Split a byte list into consecutive 64-byte chunks. -/
def chunks64 (l : List Nat) : List (List Nat) := chunks64Go [] l

/-- SHA-1 message schedule: 80 32-bit words from one 64-byte block. -/
def sha1W (block : List Nat) : List Nat :=
  let w16 := (List.range 16).map (fun i =>
    ((block.getD (4 * i) 0) <<< 24) ||| ((block.getD (4 * i + 1) 0) <<< 16) |||
    ((block.getD (4 * i + 2) 0) <<< 8) ||| block.getD (4 * i + 3) 0)
  (List.range 64).foldl (fun w _ =>
    let t := w.length
    w ++ [rotl 1 ((w.getD (t - 3) 0) ^^^ (w.getD (t - 8) 0) ^^^
                  (w.getD (t - 14) 0) ^^^ (w.getD (t - 16) 0))]) w16

/-- SHA-1 compression of one block into the running five-word state. -/
def sha1Compress (h : Nat × Nat × Nat × Nat × Nat) (block : List Nat) :
    Nat × Nat × Nat × Nat × Nat :=
  let w := sha1W block
  let (h0, h1, h2, h3, h4) := h
  let st := (List.range 80).foldl (fun (st : Nat × Nat × Nat × Nat × Nat) i =>
    let (a, b, c, d, e) := st
    let f :=
      if i < 20 then (b &&& c) ||| ((M32 - 1 - b) &&& d)
      else if i < 40 then b ^^^ c ^^^ d
      else if i < 60 then (b &&& c) ||| (b &&& d) ||| (c &&& d)
      else b ^^^ c ^^^ d
    let k :=
      if i < 20 then 0x5A827999
      else if i < 40 then 0x6ED9EBA1
      else if i < 60 then 0x8F1BBCDC
      else 0xCA62C1D6
    let temp := (rotl 5 a + f + e + k + w.getD i 0) % M32
    (temp, a, rotl 30 b, c, d)) (h0, h1, h2, h3, h4)
  ((h0 + st.1) % M32, (h1 + st.2.1) % M32, (h2 + st.2.2.1) % M32,
   (h3 + st.2.2.2.1) % M32, (h4 + st.2.2.2.2) % M32)

/-- SHA-1 initial state. -/
def sha1Init : Nat × Nat × Nat × Nat × Nat :=
  (0x67452301, 0xEFCDAB89, 0x98BADCFE, 0x10325476, 0xC3D2E1F0)

/-- Lowercase hex digit for a nibble. -/
def hexDigitChar : Nat → Char
  | 0 => '0' | 1 => '1' | 2 => '2' | 3 => '3' | 4 => '4' | 5 => '5'
  | 6 => '6' | 7 => '7' | 8 => '8' | 9 => '9' | 10 => 'a' | 11 => 'b'
  | 12 => 'c' | 13 => 'd' | 14 => 'e' | _ => 'f'

/-- Eight hex digits (big-endian) of a 32-bit word. -/
def wordHex (w : Nat) : List Char :=
  [hexDigitChar ((w >>> 28) &&& 15), hexDigitChar ((w >>> 24) &&& 15),
   hexDigitChar ((w >>> 20) &&& 15), hexDigitChar ((w >>> 16) &&& 15),
   hexDigitChar ((w >>> 12) &&& 15), hexDigitChar ((w >>> 8) &&& 15),
   hexDigitChar ((w >>> 4) &&& 15), hexDigitChar (w &&& 15)]

/-- Model of `hashlib.sha1(msg).hexdigest()`. -/
def sha1Hex (msg : List Nat) : String :=
  let st := (chunks64 (sha1Pad msg)).foldl sha1Compress sha1Init
  ⟨wordHex st.1 ++ wordHex st.2.1 ++ wordHex st.2.2.1 ++
   wordHex st.2.2.2.1 ++ wordHex st.2.2.2.2⟩

/-! ## Python floats as exact decimals

Every float in this pipeline is parsed from decimal text with at most seven
significant digits; on that range IEEE doubles are distinct for distinct
decimals and ordered identically, so an exact-decimal model is faithful for
the parsing, comparison and equality the code performs. Underscore digit
separators (a fringe of Python's grammar never produced by this pipeline's
data) are not modelled. -/

inductive PyFloat where
  /-- The value `m * 10 ^ e`, normalized so that `10 ∤ m` unless `m = 0`. -/
  | fin (m : Int) (e : Int)
  | inf
  | ninf
  | nan
  deriving DecidableEq

/-- Normalization worker; the fuel bounds the number of trailing-zero strips. -/
def normFinGo : Nat → Int → Int → PyFloat
  | 0, m, e => .fin m e
  | fuel + 1, m, e =>
    if m = 0 then .fin 0 0
    else if m % 10 = 0 then normFinGo fuel (m / 10) (e + 1)
    else .fin m e

/-- Normal form of `m * 10 ^ e`. -/
def normFin (m e : Int) : PyFloat := normFinGo (m.natAbs + 1) m e

/-- Numeric value of a digit run. -/
def digitsVal (l : List Char) : Nat :=
  l.foldl (fun acc c => acc * 10 + (c.toNat - 48)) 0

/-- Parse the numeric (non-inf/nan) body of a Python float literal:
`[digits][.digits][(e)[±]digits]`, already sign-stripped and lowercased. -/
def pyFloatNum (l : List Char) : Option PyFloat :=
  let ip := l.takeWhile Char.isDigit
  let r1 := l.dropWhile Char.isDigit
  let hasDot : Bool := match r1 with | '.' :: _ => true | _ => false
  let afterDot := match r1 with | '.' :: t => t | _ => r1
  let fp := if hasDot then afterDot.takeWhile Char.isDigit else []
  let r2 := if hasDot then afterDot.dropWhile Char.isDigit else r1
  if ip.isEmpty && fp.isEmpty then none
  else
    let mant : Int := Int.ofNat (digitsVal (ip ++ fp))
    let e0 : Int := -(fp.length : Int)
    match r2 with
    | [] => some (normFin mant e0)
    | 'e' :: t =>
      let sgn : Int := match t with | '-' :: _ => -1 | _ => 1
      let t' := match t with | '+' :: u => u | '-' :: u => u | u => u
      let ds := t'.takeWhile Char.isDigit
      if ds.isEmpty || !(t'.dropWhile Char.isDigit).isEmpty then none
      else some (normFin mant (e0 + sgn * Int.ofNat (digitsVal ds)))
    | _ => none

/-- The sign-stripped body of a float literal: `inf`, `infinity`, `nan`, or a number. -/
def pyFloatBody (sign : Int) (l : List Char) : Option PyFloat :=
  if l = "inf".data || l = "infinity".data then some (if sign ≥ 0 then .inf else .ninf)
  else if l = "nan".data then some .nan
  else
    match pyFloatNum l with
    | some (.fin m e) => some (normFin (sign * m) e)
    | other => other

/-- Python's `float(s)` builtin: `some` value on success, `none` where Python
raises `ValueError`. -/
def pyFloatParse (s : String) : Option PyFloat :=
  let l := (pyStripChars s.data).map Char.toLower
  match l with
  | '+' :: t => pyFloatBody 1 t
  | '-' :: t => pyFloatBody (-1) t
  | t => pyFloatBody 1 t

/-- Model of `str(f)` for the magnitudes this pipeline handles (plain decimal notation;
Python switches to scientific notation only outside `[1e-4, 1e16)`, which no
scraped currency amount reaches). -/
def pyRepr : PyFloat → String
  | .inf => "inf"
  | .ninf => "-inf"
  | .nan => "nan"
  | .fin m e =>
    let sign := if m < 0 then "-" else ""
    let n := m.natAbs
    if 0 ≤ e then sign ++ toString (n * 10 ^ e.toNat) ++ ".0"
    else
      let k := (-e).toNat
      let ds := (toString n).data
      let padded := List.replicate (k + 1 - ds.length) '0' ++ ds
      sign ++ ⟨padded.take (padded.length - k)⟩ ++ "." ++ ⟨padded.drop (padded.length - k)⟩

/-- Model of `str(x)` for an optional float interpolated into an f-string:
`None` prints as `"None"`. -/
def reprOptFloat : Option PyFloat → String
  | none => "None"
  | some f => pyRepr f

/-! ## export_feed.py: field coercions (`to_float`, `to_int`, `to_bool`)

CSV cell values are `Option String`: `none` models a key absent from the row
dict (`row.get(k)` returning `None`), `some ""` an empty cell. -/

/-- Model of `export_feed.to_float`: parse-or-None, never raises. -/
def to_float : Option String → Option PyFloat
  | none => none
  | some v =>
    let s := pyStrip v
    if s = "" || pyLower s = "nan" then none
    else pyFloatParse s

/-- Truncation toward zero of `m * 10 ^ e` (Python's `int(float)`). -/
def truncToInt (m e : Int) : Int :=
  if 0 ≤ e then m * 10 ^ e.toNat else Int.tdiv m (10 ^ (-e).toNat)

/-- Model of `export_feed.to_int`: `int(float(s))`-or-None, never raises
(`int(inf)`/`int(nan)` raise in Python, caught into `None`). -/
def to_int : Option String → Option Int
  | none => none
  | some v =>
    let s := pyStrip v
    if s = "" || pyLower s = "nan" then none
    else
      match pyFloatParse s with
      | some (.fin m e) => some (truncToInt m e)
      | _ => none

/-- Model of `export_feed.to_bool`: fixed truthy/falsy token lists, else None. -/
def to_bool : Option String → Option Bool
  | none => none
  | some v =>
    let s := pyLower (pyStrip v)
    if s = "true" || s = "1" || s = "yes" || s = "y" then some true
    else if s = "false" || s = "0" || s = "no" || s = "n" then some false
    else none

/-! ## Python datetimes and `parse_iso`

`datetime` values are modelled by their components plus an optional UTC
offset in minutes (`none` = offset-naive). `datetime.fromisoformat` is
modelled for the canonical shapes this pipeline writes and compares:
`YYYY-MM-DD[<sep>HH:MM[:SS[.ffffff]][±HH:MM]]`. -/

structure PyDatetime where
  year : Nat
  month : Nat
  day : Nat
  hour : Nat
  minute : Nat
  second : Nat
  usec : Nat
  tzMin : Option Int
  deriving DecidableEq

/-- Model of `datetime.min`: 0001-01-01 00:00:00, offset-naive. -/
def dtMin : PyDatetime := ⟨1, 1, 1, 0, 0, 0, 0, none⟩

/-- Read exactly two digits. -/
def read2 : List Char → Option (Nat × List Char)
  | a :: b :: t =>
    if a.isDigit && b.isDigit then some (10 * (a.toNat - 48) + (b.toNat - 48), t) else none
  | _ => none

/-- Read exactly four digits. -/
def read4 : List Char → Option (Nat × List Char)
  | a :: b :: c :: d :: t =>
    if a.isDigit && b.isDigit && c.isDigit && d.isDigit then
      some (1000 * (a.toNat - 48) + 100 * (b.toNat - 48) + 10 * (c.toNat - 48) + (d.toNat - 48), t)
    else none
  | _ => none

/-- Gregorian leap year. -/
def leapYear (y : Nat) : Bool := y % 4 = 0 && (y % 100 ≠ 0 || y % 400 = 0)

/-- Days in a month. -/
def daysInMonth (y m : Nat) : Nat :=
  if m = 2 then (if leapYear y then 29 else 28)
  else if m = 4 || m = 6 || m = 9 || m = 11 then 30
  else 31

/-- Parse the optional `±HH:MM` offset tail. -/
def readOffset : List Char → Option (Option Int)
  | [] => some none
  | c :: t =>
    if c = '+' || c = '-' then
      match read2 t with
      | some (oh, ':' :: t2) =>
        match read2 t2 with
        | some (om, []) =>
          if oh ≤ 23 && om ≤ 59 then
            some (some ((if c = '-' then -1 else 1) * (oh * 60 + om)))
          else none
        | _ => none
      | _ => none
    else none

/-- Parse the `[.ffffff]` fractional-second tail into microseconds. -/
def readFrac : List Char → Option (Nat × List Char)
  | '.' :: t =>
    let ds := t.takeWhile Char.isDigit
    if ds.isEmpty || 6 < ds.length then none
    else some (digitsVal ds * 10 ^ (6 - ds.length), t.dropWhile Char.isDigit)
  | l => some (0, l)

/-- Model of `datetime.fromisoformat` (canonical shapes; `none` = `ValueError`). -/
def pyFromIso (s : String) : Option PyDatetime := do
  let l := s.data
  let (y, r1) ← read4 l
  let r2 ← match r1 with | '-' :: t => some t | _ => none
  let (mo, r3) ← read2 r2
  let r4 ← match r3 with | '-' :: t => some t | _ => none
  let (d, r5) ← read2 r4
  if y < 1 || mo < 1 || 12 < mo || d < 1 || daysInMonth y mo < d then none
  else
    match r5 with
    | [] => some ⟨y, mo, d, 0, 0, 0, 0, none⟩
    | _ :: t => do
      let (h, r6) ← read2 t
      let r7 ← match r6 with | ':' :: u => some u | _ => none
      let (mi, r8) ← read2 r7
      let (sec, usec, r9) ← ← (do
        match r8 with
        | ':' :: u => do
          let (se, r) ← read2 u
          let (us, r') ← readFrac r
          pure (some (se, us, r'))
        | _ => pure (some (0, 0, r8)) : Option (Option (Nat × Nat × List Char)))
      if 23 < h || 59 < mi || 59 < sec then none
      else
        match readOffset r9 with
        | some tz => some ⟨y, mo, d, h, mi, sec, usec, tz⟩
        | none => none

/-- Model of `export_feed.parse_iso`: replace `Z`, parse, `datetime.min` on failure. -/
def parse_iso (s : String) : PyDatetime :=
  (pyFromIso (pyReplace s "Z" "+00:00")).getD dtMin

/-- Rata-die style day number of a (validated) Gregorian date. -/
def ymdToDays (y m d : Nat) : Nat :=
  365 * (y - 1) + ((y - 1) / 4 - (y - 1) / 100) + (y - 1) / 400 +
    ((List.range (m - 1)).map (fun i => daysInMonth y (i + 1))).sum + (d - 1)

/-- Microsecond-scale mixed-radix key; on validated dates, naive `datetime`
comparison is exactly comparison of this key. -/
def dtKey (d : PyDatetime) : Nat :=
  ((((ymdToDays d.year d.month d.day) * 24 + d.hour) * 60 + d.minute) * 60 + d.second)
    * 1000000 + d.usec

/-- Python `a > b` on datetimes: comparing an offset-naive with an
offset-aware value raises `TypeError` (modelled as `Except.error`). -/
def pyDtGt (a b : PyDatetime) : Except Unit Bool :=
  match a.tzMin, b.tzMin with
  | none, none => .ok (decide (dtKey b < dtKey a))
  | some za, some zb =>
    .ok (decide ((dtKey b : Int) - zb * 60000000 < (dtKey a : Int) - za * 60000000))
  | _, _ => .error ()

/-! ## export_feed.py: `norm_title` and `deterministic_id` -/

/-- Characters kept by `norm_title`'s filter class `[a-z0-9 €£%.\-_/]`. -/
def normTitleKeep (c : Char) : Bool :=
  ('a' ≤ c && c ≤ 'z') || ('0' ≤ c && c ≤ '9') || c = ' ' || c = '€' || c = '£' ||
    c = '%' || c = '.' || c = '-' || c = '_' || c = '/'

/-- Model of `re.sub(r"\s+", " ", ·)`: collapse whitespace runs to single spaces. -/
def collapseGo (prevWs : Bool) : List Char → List Char
  | [] => []
  | c :: rest =>
    if pyIsWs c then
      if prevWs then collapseGo true rest else ' ' :: collapseGo true rest
    else c :: collapseGo false rest

/-- Model of `export_feed.norm_title`. -/
def norm_title (s : String) : String :=
  let s1 := pyLower (pyStrip s)
  let s2 := collapseGo false s1.data
  ⟨(s2.filter normTitleKeep).take 220⟩

/-- Model of `export_feed.deterministic_id`: SHA-1 of the joined identity fields. -/
def deterministic_id (store_domain title : String) (new_price : Option PyFloat)
    (source_url : String) : String :=
  sha1Hex (utf8Bytes (pyLower store_domain ++ "|" ++ norm_title title ++ "|" ++
    reprOptFloat new_price ++ "|" ++ pyStrip source_url))

/-! ## Generic helpers: insertion-ordered dict and Python's stable sort

A Python dict is modelled as an association list: a new key is appended,
an existing key's value is overwritten in place (preserving its position),
and `values()` iterates in that key-insertion order. `list.sort`/`sorted`
is modelled by a stable insertion sort: an element is inserted after every
already-placed element whose key does not exceed its own, which is exactly
the stability contract of Python's sort. -/

/-- Decidable equality for `Except` results (needed to `decide` concrete
runs of the fallible merge). -/
instance {ε α : Type} [DecidableEq ε] [DecidableEq α] : DecidableEq (Except ε α) := fun a b =>
  match a, b with
  | .ok x, .ok y =>
    match decEq x y with
    | isTrue h => isTrue (by rw [h])
    | isFalse h => isFalse (by intro hh; injection hh; exact h ‹_›)
  | .error x, .error y =>
    match decEq x y with
    | isTrue h => isTrue (by rw [h])
    | isFalse h => isFalse (by intro hh; injection hh; exact h ‹_›)
  | .ok _, .error _ => isFalse (by intro hh; exact Except.noConfusion hh)
  | .error _, .ok _ => isFalse (by intro hh; exact Except.noConfusion hh)

/-- Dict lookup. -/
def dictGet {α : Type} (m : List (String × α)) (k : String) : Option α :=
  match m with
  | [] => none
  | (k', v) :: rest => if k' = k then some v else dictGet rest k

/-- Dict assignment `m[k] = v`. -/
def dictSet {α : Type} (m : List (String × α)) (k : String) (v : α) : List (String × α) :=
  match m with
  | [] => [(k, v)]
  | (k', v') :: rest => if k' = k then (k', v) :: rest else (k', v') :: dictSet rest k v

/-- Stable insertion of one element into an already-sorted list. -/
def insSorted {α : Type} (le : α → α → Bool) (x : α) : List α → List α
  | [] => [x]
  | y :: ys => if le y x then y :: insSorted le x ys else x :: y :: ys

/-- Stable sort with boolean `le` (total and transitive at every use site). -/
def pySort {α : Type} (le : α → α → Bool) (l : List α) : List α :=
  l.foldl (fun acc x => insSorted le x acc) []

/-! ## export_feed.py: `main` (the feed merger) -/

/-- One CSV row of `deals.csv` as read by `csv.DictReader`: each referenced
column as `row.get(k)` sees it (`none` = column absent). -/
structure CsvRow where
  store_name : Option String := none
  category : Option String := none
  website_domain : Option String := none
  source_url : Option String := none
  title : Option String := none
  new_price : Option String := none
  old_price : Option String := none
  discount_percent : Option String := none
  in_store_confidence : Option String := none
  needs_review : Option String := none
  addr : Option String := none
  lat : Option String := none
  lon : Option String := none
  captured_at : Option String := none
  publish : Option String := none
  deriving DecidableEq

/-- One published item as assembled in the merge loop. -/
structure Item where
  id : String
  title : String
  store_name : String
  category : String
  new_price : Option PyFloat
  old_price : Option PyFloat
  discount_percent : Option Int
  in_store_confidence : String
  needs_review : Bool
  source_url : String
  addr : String
  lat : Option PyFloat
  lon : Option PyFloat
  captured_at : String
  deriving DecidableEq

/-- The item dict built from one considered row (`now` is the run's
`now_iso()` value, used when `captured_at` is missing or empty). -/
def buildItem (now : String) (row : CsvRow) : Item :=
  let store_domain := pyLower (pyStrip (row.website_domain.getD ""))
  let title0 := pyStrip (row.title.getD "")
  let title := if title0 = "" then "(untitled)" else title0
  let source_url := pyStrip (row.source_url.getD "")
  let new_price := to_float row.new_price
  { id := deterministic_id store_domain title new_price source_url
    title := title
    store_name := pyStrip (row.store_name.getD "")
    category := pyStrip (row.category.getD "")
    new_price := new_price
    old_price := to_float row.old_price
    discount_percent := to_int row.discount_percent
    in_store_confidence := pyUpper (pyStrip (getOrLow row.in_store_confidence))
    needs_review := (to_bool row.needs_review).getD true
    source_url := source_url
    addr := pyStrip (row.addr.getD "")
    lat := to_float row.lat
    lon := to_float row.lon
    captured_at := pyStrip (orElseStr row.captured_at now) }
where
  /-- `(row.get("in_store_confidence") or "LOW")`. -/
  getOrLow : Option String → String
    | none => "LOW"
    | some s => if s = "" then "LOW" else s
  /-- `(x or y)` on an optional string. -/
  orElseStr : Option String → String → String
    | none, y => y
    | some s, y => if s = "" then y else s

/-- Model of `"publish" in rows[0].keys() if rows else []`. -/
def hasPublishCol (rows : List CsvRow) : Bool :=
  match rows with
  | [] => false
  | r :: _ => r.publish.isSome

/-- Model of `has_publish and any(v is True for v in publish_values)`. -/
def shouldFilterPublish (rows : List CsvRow) : Bool :=
  hasPublishCol rows && rows.any (fun r => to_bool r.publish = some true)

/-- The rows the merge loop does not `continue` past. -/
def consideredRows (rows : List CsvRow) : List CsvRow :=
  if shouldFilterPublish rows then rows.filter (fun r => to_bool r.publish = some true)
  else rows

/-- One merge step: keep the newcomer only on strictly-later `captured_at`;
the datetime comparison can raise `TypeError`, which aborts the run. -/
def mergeStep (m : List (String × Item)) (it : Item) : Except Unit (List (String × Item)) :=
  match dictGet m it.id with
  | none => .ok (dictSet m it.id it)
  | some existing => do
    let later ← pyDtGt (parse_iso it.captured_at) (parse_iso existing.captured_at)
    if later then .ok (dictSet m it.id it) else .ok m

/-- Fold of `mergeStep` over the considered rows. -/
def mergeFold (m : List (String × Item)) : List Item → Except Unit (List (String × Item))
  | [] => .ok m
  | it :: rest => do mergeFold (← mergeStep m it) rest

/-- Lexicographic order by code point on character lists — exactly Python's
`str` comparison. -/
def lexLe : List Char → List Char → Bool
  | [], _ => true
  | _ :: _, [] => false
  | c :: cs, d :: ds =>
    if c.toNat < d.toNat then true
    else if d.toNat < c.toNat then false
    else lexLe cs ds

/-- Ascending comparison on item ids (Python's lexicographic `str` order). -/
def idLe (a b : Item) : Bool := lexLe a.id.data b.id.data

/-- Model of `export_feed.main`, minus file I/O: the published `items` list built from
the raw rows. `Except.error` models the uncaught `TypeError` that a
naive/aware timestamp comparison raises. -/
def exportItems (now : String) (rows : List CsvRow) : Except Unit (List Item) := do
  let latest ← mergeFold [] ((consideredRows rows).map (buildItem now))
  .ok (pySort idLe (latest.map (·.2)))

/-! ## extract_deals.py: price and percent token scanning

`PRICE_RE = (€|eur|£|gbp)\s*(\d{1,5}(?:[.,]\d{2})?)` (IGNORECASE) and
`PERCENT_RE = (\d{1,3})\s*%` are embedded as explicit left-to-right scanners
with the regex engine's leftmost-match and greedy/backtracking behaviour.
Currency amounts are represented in cents (`4999` = `49.99`): the amounts the
pattern admits have at most 5+2 digits, a range on which Python's float
parsing and comparison agree exactly with cent arithmetic (the source's
`to_float`, comma folded to a dot, is absorbed into the cents value). -/

/-- Match one currency alternative `€|eur|£|gbp` (case-insensitively) at the
head of the list, returning the remainder. -/
def stripCur (l : List Char) : Option (List Char) :=
  match l with
  | [] => none
  | c :: t =>
    if c = '€' || c = '£' then some t
    else if c.toLower = 'e' then
      match t with
      | u :: r :: t' => if u.toLower = 'u' && r.toLower = 'r' then some t' else none
      | _ => none
    else if c.toLower = 'g' then
      match t with
      | b :: p :: t' => if b.toLower = 'b' && p.toLower = 'p' then some t' else none
      | _ => none
    else none

/-- Try `PRICE_RE` anchored at the head: currency, `\s*`, up to five digits
(greedy), optional `[.,]` plus exactly two digits. Returns the amount in
cents and the remainder after the match. -/
def tryPriceAt (l : List Char) : Option (Nat × List Char) :=
  match stripCur l with
  | none => none
  | some r1 =>
    let r2 := r1.dropWhile pyIsWs
    let ds := r2.takeWhile Char.isDigit
    if ds.isEmpty then none
    else
      let taken := ds.take 5
      let r3 := r2.drop taken.length
      match r3 with
      | p :: d1 :: d2 :: t =>
        if (p = '.' || p = ',') && d1.isDigit && d2.isDigit then
          some (digitsVal taken * 100 + 10 * (d1.toNat - 48) + (d2.toNat - 48), t)
        else some (digitsVal taken * 100, r3)
      | _ => some (digitsVal taken * 100, r3)

/-- Model of `PRICE_RE.finditer`: leftmost non-overlapping matches, in order.
The fuel (initialized to the text length, which every match strictly
decreases) keeps the recursion structural so the kernel can evaluate it. -/
def priceScanGo : Nat → List Char → List Nat
  | 0, _ => []
  | fuel + 1, l =>
    match l with
    | [] => []
    | c :: rest =>
      match tryPriceAt (c :: rest) with
      | some (cents, after) => cents :: priceScanGo fuel after
      | none => priceScanGo fuel rest

/-- All `PRICE_RE` matches of a text, in cents. -/
def priceScan (l : List Char) : List Nat := priceScanGo l.length l

/-- Try `PERCENT_RE` anchored at the head: one to three digits (a longer
digit run admits no match here — the regex backtracks and re-anchors
further right), `\s*`, `%`. -/
def tryPercentAt (l : List Char) : Option Nat :=
  let ds := l.takeWhile Char.isDigit
  if ds.isEmpty || 3 < ds.length then none
  else
    match (l.drop ds.length).dropWhile pyIsWs with
    | '%' :: _ => some (digitsVal ds)
    | _ => none

/-- Model of `PERCENT_RE.search`: first match, scanning left to right. -/
def percentScanGo : Nat → List Char → Option Nat
  | 0, _ => none
  | _ + 1, [] => none
  | fuel + 1, c :: rest =>
    match tryPercentAt (c :: rest) with
    | some v => some v
    | none => percentScanGo fuel rest

/-- First `PERCENT_RE` match of a text. -/
def percentSearch (l : List Char) : Option Nat := percentScanGo l.length l

/-- Model of `extract_deals.extract_prices`, returning
`(new_price, old_price, discount_percent)` with prices in cents. -/
def extract_prices (text : String) : Option Nat × Option Nat × Option Nat :=
  let prices := (priceScan text.data).take 6
  let discount := percentSearch text.data
  match prices with
  | [] => (none, none, discount)
  | [p] => (some p, none, discount)
  | a :: b :: _ => (some (min a b), some (max a b), discount)

/-! ## extract_deals.py: page-level extraction -/

/-- In-store phrase list (HIGH confidence). -/
def INSTORE_HIGH : List String :=
  ["in-store", "in store", "participating stores", "while stocks last",
   "selected stores", "in selected stores", "available in store"]

/-- Online-checkout phrase list (LOW confidence). -/
def INSTORE_LOW : List String :=
  ["delivery", "shipping", "checkout", "add to cart", "add to basket",
   "buy now", "order online", "cart"]

/-- Model of `extract_deals.confidence_from_text`. -/
def confidence_from_text (t : String) : String :=
  let tl := pyLower t
  if INSTORE_HIGH.any (fun k => pyContains tl k) then "HIGH"
  else if INSTORE_LOW.any (fun k => pyContains tl k) then "LOW"
  else "MEDIUM"

/-- First position of a pattern as a suffix pointer: the remainder of `l`
after the first occurrence of `pat`, if any. -/
def afterSub (pat : List Char) : List Char → Option (List Char)
  | [] => none
  | c :: t => if pat.isPrefixOf (c :: t) then some ((c :: t).drop pat.length) else afterSub pat t

/-- Model of `urlparse(url).netloc.lower()` for the absolute-URL shapes this code
builds (`scheme://netloc/...`); other shapes have an empty netloc. -/
def domain_of (url : String) : String :=
  let rest :=
    match afterSub "://".data url.data with
    | some r => r
    | none => if "//".data.isPrefixOf url.data then url.data.drop 2 else []
  ⟨(rest.takeWhile (fun c => c ≠ '/' && c ≠ '?' && c ≠ '#')).map Char.toLower⟩

/-- One tile element, as the extractor observes it through BeautifulSoup:
its flattened text and the texts of the `["h3","h2","h4","a","span"]`
`select_one` probes in that order (`""` = probe absent or empty). -/
structure Tile where
  txt : String
  titleCands : List String
  deriving DecidableEq

/-- One fetched page, as the extractor observes it through BeautifulSoup:
whole-page text, the `best_title` probes (`h1`, `h2`, `<title>`; `""` =
absent or empty), and the `soup.select` result for each of the four
tile-selector families `[class*='product'|'tile'|'item'|'card']`. -/
structure PageDoc where
  pageText : String
  h1 : String
  h2 : String
  titleTag : String
  selProduct : List Tile
  selTile : List Tile
  selItem : List Tile
  selCard : List Tile
  deriving DecidableEq

/-- The four tile-selector families, in the order the source tries them. -/
def tileFamilies (p : PageDoc) : List (List Tile) :=
  [p.selProduct, p.selTile, p.selItem, p.selCard]

/-- Model of `extract_deals.best_title`. -/
def best_title (p : PageDoc) (fallback : String) : String :=
  if p.h1 ≠ "" then pyTake p.h1 160
  else if p.h2 ≠ "" then pyTake p.h2 160
  else if p.titleTag ≠ "" then pyTake p.titleTag 160
  else
    let f := pyTake (pyStrip fallback) 160
    if f = "" then "(untitled)" else f

/-- Model of `extract_deals.DealRow` (prices in cents). -/
structure DealRow where
  store_name : String
  category : String
  website_domain : String
  source_url : String
  title : String
  new_price : Option Nat
  old_price : Option Nat
  discount_percent : Option Nat
  in_store_confidence : String
  needs_review : Bool
  addr : String
  lat : Option PyFloat
  lon : Option PyFloat
  captured_at : String
  publish : Option Bool
  deriving DecidableEq

/-- Non-page arguments of `extract_deals_from_page`, plus the run's
`now_iso()` value stamped on every produced row. -/
structure ExtractCtx where
  pageUrl : String
  storeName : String
  category : String
  addr : String
  lat : Option PyFloat
  lon : Option PyFloat
  now : String
  deriving DecidableEq

/-- Tile title guess: first non-empty probe text, else the page fallback. -/
def tileTitle (p : PageDoc) (t : Tile) : String :=
  match t.titleCands.find? (fun s => s ≠ "") with
  | some s => pyTake s 160
  | none => best_title p "Offer"

/-- Assemble one `DealRow` (note the hard-coded `needs_review := true` and
`publish := none`). -/
def mkDealRow (ctx : ExtractCtx) (conf title : String)
    (np op disc : Option Nat) : DealRow :=
  { store_name := ctx.storeName
    category := ctx.category
    website_domain := domain_of ctx.pageUrl
    source_url := ctx.pageUrl
    title := title
    new_price := np
    old_price := op
    discount_percent := disc
    in_store_confidence := conf
    needs_review := true
    addr := ctx.addr
    lat := ctx.lat
    lon := ctx.lon
    captured_at := ctx.now
    publish := none }

/-- The per-tile loop of one selector family: length floor, price/discount
signal requirement, in-page dedup by `(lowercased title, prices, discount)`. -/
def famLoop (p : PageDoc) (ctx : ExtractCtx) (conf : String)
    (seen : List (String × Option Nat × Option Nat × Option Nat)) :
    List Tile → List DealRow
  | [] => []
  | t :: rest =>
    if t.txt.data.length < 20 then famLoop p ctx conf seen rest
    else
      let pr := extract_prices t.txt
      if pr.1 = none && pr.2.1 = none && pr.2.2 = none then famLoop p ctx conf seen rest
      else
        let title := tileTitle p t
        let key := (pyLower title, pr.1, pr.2.1, pr.2.2)
        if seen.contains key then famLoop p ctx conf seen rest
        else mkDealRow ctx conf title pr.1 pr.2.1 pr.2.2 :: famLoop p ctx conf (key :: seen) rest

/-- Candidates of one family: first 40 tiles, fresh dedup set (the source's
`seen_titles` is shared across families, but it only ever grows together
with `candidates`, and a family is abandoned unless `candidates` is empty —
so every family that runs starts with both empty). -/
def famCandidates (p : PageDoc) (ctx : ExtractCtx) (conf : String)
    (tiles : List Tile) : List DealRow :=
  famLoop p ctx conf [] (tiles.take 40)

/-- The family loop: skip families with fewer than 4 matches, keep the first
remaining family whose tile loop produced at least one candidate. -/
def famSearch (p : PageDoc) (ctx : ExtractCtx) (conf : String) :
    List (List Tile) → List DealRow
  | [] => []
  | tiles :: rest =>
    if tiles.length < 4 then famSearch p ctx conf rest
    else
      let c := famCandidates p ctx conf tiles
      if c.isEmpty then famSearch p ctx conf rest else c

/-- The whole-page fallback row. -/
def fallbackDeal (p : PageDoc) (ctx : ExtractCtx) (conf : String) : DealRow :=
  let pr := extract_prices p.pageText
  mkDealRow ctx conf (best_title p ctx.storeName) pr.1 pr.2.1 pr.2.2

/-- Model of `extract_deals.extract_deals_from_page`. -/
def extract_deals_from_page (p : PageDoc) (ctx : ExtractCtx) : List DealRow :=
  let conf := confidence_from_text p.pageText
  let cands := famSearch p ctx conf (tileFamilies p)
  (if cands.isEmpty then [fallbackDeal p ctx conf] else cands).take 12

/-- The extractor `main`'s store-metadata latitude/longitude coercion:
`float(meta["lat"]) if meta.get("lat") not in (None, "", "nan") else None`.
The `float` call sits outside any try/except, so an unparsable value is an
uncaught `ValueError` (`Except.error`). -/
def latlonOfMeta (v : Option String) : Except Unit (Option PyFloat) :=
  if v = none || v = some "" || v = some "nan" then .ok none
  else
    match pyFloatParse (v.getD "") with
    | some f => .ok (some f)
    | none => .error ()

/-! ## promo_discover.py -/

/-- Fixed conventional promotional path segments. -/
def PROMO_PATHS : List String :=
  ["/sale", "/sales", "/offers", "/offer", "/promotions", "/promotion",
   "/clearance", "/deals", "/deal", "/weekly-ad", "/weeklyad", "/catalogue",
   "/catalog", "/brochure", "/leaflet", "/special-offers", "/outlet"]

/-- Fixed promotional keyword list. -/
def PROMO_KEYWORDS : List String :=
  ["sale", "offer", "offers", "promotion", "promotions", "clearance",
   "deals", "discount", "save", "special", "outlet", "black-friday",
   "leaflet", "catalogue", "catalog", "weekly"]

/-- Fixed conventional sitemap locations. -/
def SITEMAP_CANDIDATES : List String :=
  ["/sitemap.xml", "/sitemap_index.xml", "/sitemap-index.xml"]

/-- Model of `promo_discover.normalize_url`. -/
def normalize_url (url : String) : String :=
  let u := pyStrip url
  if u = "" then ""
  else if pyStartsWith u "http://" || pyStartsWith u "https://" then u
  else "https://" ++ u

/-- Model of `promo_discover.same_domain`. -/
def same_domain (a b : String) : Bool := domain_of a = domain_of b

/-- Model of `promo_discover.score_url`. -/
def score_url (url discovered_via : String) : Nat :=
  let u := pyLower url
  let s := PROMO_KEYWORDS.foldl (fun acc kw => if pyContains u kw then acc + 8 else acc) 0
  let s := if pyEndsWith u ".pdf" then s + 10 else s
  let s := if pyContains discovered_via "sitemap" then s + 3 else s
  let s := if pyContains discovered_via "common_path" then s + 5 else s
  if pyContains discovered_via "homepage_scan" then s + 4 else s

/-- The `scheme://netloc` part of an absolute URL (used by root-relative joins). -/
def schemeNetloc (base : String) : String :=
  match afterSub "://".data base.data with
  | none => ""
  | some r =>
    ⟨base.data.take (base.data.length - r.length) ++
      r.takeWhile (fun c => c ≠ '/' && c ≠ '?' && c ≠ '#')⟩

/-- Model of `urllib.parse.urljoin` for the shapes this module produces: an absolute
`rel` wins outright, a root-relative `rel` replaces the base's path, and a
plain relative `rel` is appended to the base's directory (every such join
here passes a base ending in `/`). -/
def urljoin (base rel : String) : String :=
  if pyStartsWith rel "http://" || pyStartsWith rel "https://" then rel
  else if pyStartsWith rel "/" then schemeNetloc base ++ rel
  else
    let kept := (base.data.reverse.dropWhile (· ≠ '/')).reverse
    (if kept.isEmpty then base ++ "/" else (⟨kept⟩ : String)) ++ rel

/-- Python `u.split("#")[0]`. -/
def splitHash (u : String) : String := ⟨u.data.takeWhile (· ≠ '#')⟩

/-- Python `p.lstrip("/")`. -/
def lstripSlash (p : String) : String := ⟨p.data.dropWhile (· = '/')⟩

/-- Deduplicate keeping first occurrences (models accumulating into a
Python set; set iteration order is unspecified in Python, and nothing
downstream of these sets is order-sensitive beyond rank tie-breaking,
about which the spec claims nothing). -/
def dedupeGo (seen : List String) : List String → List String
  | [] => []
  | x :: rest => if seen.contains x then dedupeGo seen rest else x :: dedupeGo (x :: seen) rest

/-- Case-insensitive literal match at the head. -/
def ciPrefix (pat : List Char) (l : List Char) : Bool :=
  pat.isPrefixOf (l.take pat.length |>.map Char.toLower)

/-- Remainder after the earliest case-insensitive `</loc>`, with the span
before it. -/
def splitCloseLoc : List Char → Option (List Char × List Char)
  | [] => none
  | c :: t =>
    if ciPrefix "</loc>".data (c :: t) then some ([], (c :: t).drop 6)
    else
      match splitCloseLoc t with
      | some (mid, rest) => some (c :: mid, rest)
      | none => none

/-- Model of `re.findall(r"<loc>\s*(.*?)\s*</loc>", xml, IGNORECASE)`: the
whitespace-trimmed spans between `<loc>` tag pairs whose trimmed content
stays on one line (the lazy `.` cannot cross a newline). -/
def findLocsGo : Nat → List Char → List String
  | 0, _ => []
  | _ + 1, [] => []
  | fuel + 1, c :: rest =>
    if ciPrefix "<loc>".data (c :: rest) then
      match splitCloseLoc ((c :: rest).drop 5) with
      | some (mid, rest') =>
        let trimmed := pyStripChars mid
        if trimmed.contains '\n' then findLocsGo fuel rest
        else (⟨trimmed⟩ : String) :: findLocsGo fuel rest'
      | none => findLocsGo fuel rest
    else findLocsGo fuel rest

/-- All `<loc>` values of a sitemap document. -/
def findLocs (xml : String) : List String := findLocsGo xml.data.length xml.data

/-- The injectable environment: `fetch` results by URL and the `a[href]`
attribute values BeautifulSoup reports for a document (the spec itself
requires the fetch step to be an injectable capability). -/
structure PromoEnv where
  net : String → Option String
  hrefs : String → List String

/-- Model of `promo_discover.sitemap_urls` (`max_urls = 4000` default). -/
def sitemap_urls (net : String → Option String) (site_base : String) : List String :=
  go SITEMAP_CANDIDATES []
where
  keepLoc (found : List String) (locs : List String) : List String :=
    found ++ dedupeGo found (locs.filterMap (fun loc0 =>
      let loc := pyStrip loc0
      if pyStartsWith loc "http://" || pyStartsWith loc "https://" then
        some (splitHash loc)
      else none))
  go : List String → List String → List String
    | [], found => found
    | path :: rest, found =>
      match net (urljoin site_base path) with
      | none => go rest found
      | some xml =>
        if xml = "" then go rest found
        else
          let found' := keepLoc found ((findLocs xml).take 4000)
          if found'.isEmpty then go rest found' else found'

/-- Model of `promo_discover.extract_links_from_html`, with the `soup.select("a[href]")`
step abstracted by `hrefs`. -/
def extract_links_from_html (hrefs : String → List String)
    (base_url html : String) : List String :=
  dedupeGo [] ((hrefs html).filterMap (fun href0 =>
    let href := pyStrip href0
    if href = "" then none
    else
      let absu := urljoin base_url href
      if pyStartsWith absu "http://" || pyStartsWith absu "https://" then
        some (splitHash absu)
      else none))

/-- One row of `stores_with_websites.csv` as the discoverer reads it. -/
structure StoreRow where
  name : Option String := none
  category : Option String := none
  website : Option String := none
  deriving DecidableEq

/-- One output row of `promo_urls.csv`. -/
structure PromoUrlRow where
  store_name : String
  category : String
  website : String
  website_domain : String
  promo_url : String
  priority_score : Int
  discovered_via : String
  captured_at : String
  deriving DecidableEq

/-- The per-store candidate dict `url ↦ (score, via)`: common paths, then
sitemap hits, then same-domain homepage links; a later strategy overwrites
an earlier entry for the same URL in place. -/
def storeCandidates (env : PromoEnv) (website : String) :
    List (String × Nat × String) :=
  let d0 := PROMO_PATHS.foldl (fun d p =>
    let u := urljoin (if pyEndsWith website "/" then website else website ++ "/")
      (lstripSlash p)
    dictSet d u (score_url u "common_path", "common_path")) []
  let d1 := (sitemap_urls env.net website).foldl (fun d u =>
    if PROMO_KEYWORDS.any (fun kw => pyContains (pyLower u) kw) then
      dictSet d u (score_url u "sitemap", "sitemap")
    else d) d0
  match env.net website with
  | none => d1
  | some home_html =>
    if home_html = "" then d1
    else
      (extract_links_from_html env.hrefs website home_html).foldl (fun d u =>
        if PROMO_KEYWORDS.any (fun kw => pyContains (pyLower u) kw) &&
            same_domain u website then
          dictSet d u (score_url u "homepage_scan", "homepage_scan")
        else d) d1

/-- Descending stable order on scored candidates. -/
def candDescLe (a b : String × Nat × String) : Bool := b.2.1 ≤ a.2.1

/-- The per-store keep loop: per-store cap first, then global URL dedup. -/
def keepLoop (maxPer : Nat) (store_name category website dom now : String) :
    List (String × Nat × String) → Nat → List String →
    List PromoUrlRow × List String
  | [], _, seen => ([], seen)
  | (u, sc, via) :: rest, kept, seen =>
    if maxPer ≤ kept then ([], seen)
    else if seen.contains u then keepLoop maxPer store_name category website dom now rest kept seen
    else
      let row : PromoUrlRow :=
        { store_name := if store_name = "" then "(unnamed)" else store_name
          category := if category = "" then "unknown" else category
          website := website
          website_domain := dom
          promo_url := u
          priority_score := Int.ofNat sc
          discovered_via := via
          captured_at := now }
      let (rs, seen') :=
        keepLoop maxPer store_name category website dom now rest (kept + 1) (u :: seen)
      (row :: rs, seen')

/-- A store row the loop `continue`s past: no usable website or domain. -/
def skipStore (s : StoreRow) : Bool :=
  normalize_url (s.website.getD "") = "" || domain_of (normalize_url (s.website.getD "")) = ""

/-- One store's processing: rank the candidate dict by score (stable,
descending) and run the keep loop against the per-store cap and the global
URL dedup set. -/
def storeStep (env : PromoEnv) (maxPer : Nat) (now : String) (s : StoreRow)
    (seen : List String) : List PromoUrlRow × List String :=
  let website := normalize_url (s.website.getD "")
  keepLoop maxPer (pyStrip (s.name.getD "")) (pyStrip (s.category.getD "")) website
    (domain_of website) now (pySort candDescLe (storeCandidates env website)) 0 seen

/-- The store loop of `promo_discover.main`: skip store rows without a
usable website, rank and cap each store's candidates, and stop processing
stores entirely once the accumulated row count reaches the global cap
(checked only after a whole store). -/
def promoLoop (env : PromoEnv) (maxPer maxPages : Nat) (now : String) :
    List StoreRow → List PromoUrlRow → List String → List PromoUrlRow
  | [], rows, _ => rows
  | s :: rest, rows, seen =>
    if skipStore s then promoLoop env maxPer maxPages now rest rows seen
    else
      let (newRows, seen') := storeStep env maxPer now s seen
      let rows' := rows ++ newRows
      if maxPages ≤ rows'.length then rows'
      else promoLoop env maxPer maxPages now rest rows' seen'

/-- Model of `promo_discover.main`, minus file I/O: the accumulated candidate rows
(`maxPer` = `MAX_PROMO_URLS_PER_STORE`, `maxPages` = `MAX_PAGES_PER_RUN`). -/
def promoMain (env : PromoEnv) (maxPer maxPages : Nat) (now : String)
    (stores : List StoreRow) : List PromoUrlRow :=
  promoLoop env maxPer maxPages now stores [] []

/-! ## Concrete fixtures for counterexamples and witnesses -/

/-- Lowercase hex digit predicate (the alphabet of `hexdigest()`). -/
def isHexChar (c : Char) : Bool := ('0' ≤ c && c ≤ '9') || ('a' ≤ c && c ≤ 'f')

/-- A raw CSV row whose identity fields are fixed and whose `store_name` and
`captured_at` vary: with equal `captured_at`, two such rows collide on id. -/
def mkRawRow (nm cap : String) : CsvRow :=
  { store_name := some nm
    website_domain := some "shop.ie"
    title := some "Widget"
    source_url := some "https://shop.ie/sale"
    captured_at := some cap }

/-- Tile too short for the 20-character noise floor (despite a price). -/
def cexTileShort : Tile := ⟨"short €5.00", []⟩

/-- Tile passing the floor with a price and an `h3` title. -/
def cexTileGood : Tile := ⟨"Great savings this week only €5.00 for members", ["Fam2 Deal"]⟩

/-- Page whose first tile family has four matches but yields no candidate,
while the second family yields one. -/
def cexPage : PageDoc :=
  { pageText := "irrelevant page text"
    h1 := ""
    h2 := ""
    titleTag := ""
    selProduct := [cexTileShort, cexTileShort, cexTileShort, cexTileShort]
    selTile := [cexTileGood, cexTileShort, cexTileShort, cexTileShort]
    selItem := []
    selCard := [] }

/-- Page on which every tile family has fewer than four matches. -/
def smallPage : PageDoc :=
  { pageText := "Everything must go, save 40% in store"
    h1 := "Closing Down Sale"
    h2 := ""
    titleTag := ""
    selProduct := [cexTileGood]
    selTile := []
    selItem := []
    selCard := [] }

/-- A fixed extraction context. -/
def cexCtx : ExtractCtx :=
  { pageUrl := "https://shop.ie/sale"
    storeName := "Shop"
    category := "diy"
    addr := ""
    lat := none
    lon := none
    now := "2024-06-01T10:00:00+00:00" }

/-- Environment in which every fetch fails: only common-path candidates. -/
def c6env : PromoEnv := ⟨fun _ => none, fun _ => []⟩

/-- A single valid store row. -/
def c6store : StoreRow := { name := some "S", website := some "https://a.ie" }

/-- A second valid store row on another domain. -/
def c6store2 : StoreRow := { name := some "T", website := some "https://b.ie" }

/-- Run timestamp used by the merge fixtures. -/
def c1now : String := "2024-06-02T00:00:00+00:00"

/-- Shared capture timestamp of the tying rows. -/
def c1cap : String := "2024-06-01T10:00:00+00:00"

/-- Rows whose published output exercises merging and sorting: two distinct
titles plus the default `Widget` title, all with concrete timestamps. -/
def c2rows : List CsvRow :=
  [{ mkRawRow "A" "2024-01-01T00:00:00+00:00" with title := some "Zeta deal" },
   { mkRawRow "B" "2024-03-01T00:00:00+00:00" with title := some "Alpha deal" },
   mkRawRow "C" "2024-02-01T00:00:00+00:00"]

/-- First row of `c5rowsB` (publish column present, not true). -/
def c5rowB1 : CsvRow := { mkRawRow "A" "2024-01-01T00:00:00+00:00" with publish := some "false" }

/-- Second row of `c5rowsB`. -/
def c5rowB2 : CsvRow :=
  { mkRawRow "B" "2024-01-02T00:00:00+00:00" with publish := some "", title := some "Gadget" }

/-- Rows for the publish-filter witness: one explicitly published row, one
unpublished and one empty-publish row. -/
def c5rowsA : List CsvRow :=
  [{ mkRawRow "A" "2024-01-01T00:00:00+00:00" with publish := some "true" },
   { mkRawRow "B" "2024-01-02T00:00:00+00:00" with publish := some "false", title := some "Gadget" },
   { mkRawRow "C" "2024-01-03T00:00:00+00:00" with publish := some "" }]

/-- Rows with a publish column but no row publish-true. -/
def c5rowsB : List CsvRow := [c5rowB1, c5rowB2]

/-- The published items computed from `c5rowsB`. -/
def c5itemsB : List Item := ((exportItems "x" c5rowsB).toOption).getD []

/-! # Helper lemmas -/

theorem mem_insSorted {α : Type} (le : α → α → Bool) (x z : α) (l : List α) :
    z ∈ insSorted le x l ↔ z = x ∨ z ∈ l := by
  induction l with
  | nil => simp [insSorted]
  | cons y ys ih =>
    simp only [insSorted]
    split <;> (simp only [List.mem_cons, ih]; try tauto)

theorem pairwise_insSorted {α : Type} (le : α → α → Bool)
    (total : ∀ a b, le a b = true ∨ le b a = true)
    (htr : ∀ a b c, le a b = true → le b c = true → le a c = true)
    (x : α) (l : List α) (h : l.Pairwise (fun a b => le a b = true)) :
    (insSorted le x l).Pairwise (fun a b => le a b = true) := by
  induction l with
  | nil => simp [insSorted]
  | cons y ys ih =>
    rw [List.pairwise_cons] at h
    obtain ⟨hy, hys⟩ := h
    simp only [insSorted]
    split
    · rename_i hled
      rw [List.pairwise_cons]
      refine ⟨?_, ih hys⟩
      intro z hz
      rcases (mem_insSorted le x z ys).1 hz with rfl | hzys
      · exact hled
      · exact hy z hzys
    · rename_i hled
      have hxy : le x y = true := by
        rcases total x y with h' | h'
        · exact h'
        · exact absurd h' hled
      rw [List.pairwise_cons]
      refine ⟨?_, List.Pairwise.cons hy hys⟩
      intro z hz
      rcases List.mem_cons.1 hz with rfl | hzys
      · exact hxy
      · exact htr x y z hxy (hy z hzys)

theorem pairwise_pySort {α : Type} (le : α → α → Bool)
    (total : ∀ a b, le a b = true ∨ le b a = true)
    (htr : ∀ a b c, le a b = true → le b c = true → le a c = true)
    (l : List α) : (pySort le l).Pairwise (fun a b => le a b = true) := by
  have general : ∀ (l acc : List α), acc.Pairwise (fun a b => le a b = true) →
      (List.foldl (fun acc x => insSorted le x acc) acc l).Pairwise
        (fun a b => le a b = true) := by
    intro l
    induction l with
    | nil => intro acc h; simpa using h
    | cons a t ih =>
      intro acc h
      simp only [List.foldl_cons]
      exact ih _ (pairwise_insSorted le total htr a acc h)
  exact general l [] (by simp)

theorem mem_pySort {α : Type} (le : α → α → Bool) (z : α) (l : List α) :
    z ∈ pySort le l ↔ z ∈ l := by
  have general : ∀ (l acc : List α),
      (z ∈ List.foldl (fun acc x => insSorted le x acc) acc l ↔ z ∈ acc ∨ z ∈ l) := by
    intro l
    induction l with
    | nil => intro acc; simp
    | cons a t ih =>
      intro acc
      simp only [List.foldl_cons, ih, mem_insSorted, List.mem_cons]
      tauto
  have := general l []
  simpa [pySort] using this

theorem dictGet_mem {α : Type} (m : List (String × α)) (k : String) (v : α)
    (h : dictGet m k = some v) : (k, v) ∈ m := by
  induction m with
  | nil => simp [dictGet] at h
  | cons p rest ih =>
    obtain ⟨k', v'⟩ := p
    simp only [dictGet] at h
    split at h
    · rename_i heq
      cases h
      simp [heq]
    · simp [ih h]

theorem dictGet_dictSet_self {α : Type} (m : List (String × α)) (k : String) (v : α) :
    dictGet (dictSet m k v) k = some v := by
  induction m with
  | nil => simp [dictGet, dictSet]
  | cons p rest ih =>
    obtain ⟨k', v'⟩ := p
    simp only [dictSet]
    split
    · rename_i heq
      simp [dictGet, heq]
    · rename_i hne
      simp [dictGet, hne, ih]

theorem dictGet_dictSet_other {α : Type} (m : List (String × α)) (k k' : String) (v : α)
    (hne : k' ≠ k) : dictGet (dictSet m k v) k' = dictGet m k' := by
  induction m with
  | nil =>
    simp only [dictSet, dictGet]
    rw [if_neg (fun h => hne h.symm)]
  | cons p rest ih =>
    obtain ⟨k0, v0⟩ := p
    simp only [dictSet]
    split
    · rename_i heq
      subst heq
      simp only [dictGet]
      rw [if_neg (fun h => hne h.symm), if_neg (fun h => hne h.symm)]
    · simp only [dictGet]
      split
      · rfl
      · exact ih

/-! # Claim theorems -/

/-- Sanity anchors for the embedded primitives: the SHA-1 test vector, float
parsing and repr, and ISO datetime parsing behave as their Python
counterparts on concrete inputs. -/
theorem embedding_sanity :
    sha1Hex (utf8Bytes "abc") = "a9993e364706816aba3e25717850c26c9cd0d89d" ∧
    pyFloatParse "49.99" = some (.fin 4999 (-2)) ∧
    pyFloatParse "abc" = none ∧
    to_int (some " 12.7 ") = some 12 ∧
    pyRepr (.fin 4999 (-2)) = "49.99" ∧
    parse_iso "2024-06-01T00:00:00+00:00" = ⟨2024, 6, 1, 0, 0, 0, 0, some 0⟩ ∧
    parse_iso "garbage" = dtMin ∧
    norm_title "  Now €49.99!!  WAS €89.99 " = "now €49.99 was €89.99" := by
  decide

/-- Claim C4: `score_url` starts at 0, adds 8 for each promotional keyword
of the fixed list contained in the lowercased URL, adds 10 for a `.pdf`
suffix, and adds the flat strategy bonus 3 (sitemap), 5 (common_path) or
4 (homepage_scan); in particular a common-path URL with exactly two keywords
and a `.pdf` suffix scores 31, a homepage-scan URL with one keyword scores
12, and the descending score sort places the former first. -/
theorem score_url_spec :
    (∀ url : String,
      score_url url "sitemap" =
        8 * PROMO_KEYWORDS.countP (fun kw => pyContains (pyLower url) kw) +
          (if pyEndsWith (pyLower url) ".pdf" then 10 else 0) + 3 ∧
      score_url url "common_path" =
        8 * PROMO_KEYWORDS.countP (fun kw => pyContains (pyLower url) kw) +
          (if pyEndsWith (pyLower url) ".pdf" then 10 else 0) + 5 ∧
      score_url url "homepage_scan" =
        8 * PROMO_KEYWORDS.countP (fun kw => pyContains (pyLower url) kw) +
          (if pyEndsWith (pyLower url) ".pdf" then 10 else 0) + 4) ∧
    score_url "https://x.ie/sale-discount.pdf" "common_path" = 31 ∧
    score_url "https://y.ie/sale" "homepage_scan" = 12 ∧
    pySort candDescLe
      [("https://y.ie/sale", score_url "https://y.ie/sale" "homepage_scan", "homepage_scan"),
       ("https://x.ie/sale-discount.pdf", score_url "https://x.ie/sale-discount.pdf" "common_path",
        "common_path")] =
      [("https://x.ie/sale-discount.pdf", 31, "common_path"),
       ("https://y.ie/sale", 12, "homepage_scan")] := by
  have foldl_score : ∀ (u : String) (l : List String) (n : Nat),
      l.foldl (fun acc kw => if pyContains u kw then acc + 8 else acc) n =
        n + 8 * l.countP (fun kw => pyContains u kw) := by
    intro u l
    induction l with
    | nil => intro n; simp
    | cons a t ih =>
      intro n
      by_cases hp : pyContains u a = true <;> (simp [List.countP_cons, hp, ih]; try ring_nf)
  refine ⟨?_, by decide, by decide, by decide⟩
  intro url
  have h1 : pyContains "sitemap" "sitemap" = true := by decide
  have h2 : pyContains "sitemap" "common_path" = false := by decide
  have h3 : pyContains "sitemap" "homepage_scan" = false := by decide
  have h4 : pyContains "common_path" "sitemap" = false := by decide
  have h5 : pyContains "common_path" "common_path" = true := by decide
  have h6 : pyContains "common_path" "homepage_scan" = false := by decide
  have h7 : pyContains "homepage_scan" "sitemap" = false := by decide
  have h8 : pyContains "homepage_scan" "common_path" = false := by decide
  have h9 : pyContains "homepage_scan" "homepage_scan" = true := by decide
  refine ⟨?_, ?_, ?_⟩ <;>
    · simp only [score_url, foldl_score, h1, h2, h3, h4, h5, h6, h7, h8, h9,
        if_true, if_false, Nat.zero_add]
      by_cases hpdf : pyEndsWith (pyLower url) ".pdf" = true <;> simp [hpdf]

/-- Claim C3: `extract_prices` returns `(None, None, discount)` on zero
currency-amount tokens, the single amount as `new_price` on exactly one,
and on two or more sorts the first two so the larger is `old_price` and the
smaller `new_price`; the discount is independently the first percent match.
Amounts are in cents (`4999` = `49.99`). -/
theorem extract_prices_spec :
    (∀ text : String,
      (priceScan text.data = [] →
        extract_prices text = (none, none, percentSearch text.data)) ∧
      (∀ p, priceScan text.data = [p] →
        extract_prices text = (some p, none, percentSearch text.data)) ∧
      (∀ a b rest, priceScan text.data = a :: b :: rest →
        extract_prices text = (some (min a b), some (max a b), percentSearch text.data))) ∧
    extract_prices "Now €49.99 was €89.99, save 40%" = (some 4999, some 8999, some 40) ∧
    extract_prices "€19.50 only" = (some 1950, none, none) ∧
    extract_prices "no price here" = (none, none, none) := by
  refine ⟨?_, by decide, by decide, by decide⟩
  intro text
  refine ⟨?_, ?_, ?_⟩
  · intro h
    simp [extract_prices, h]
  · intro p h
    simp [extract_prices, h]
  · intro a b rest h
    simp [extract_prices, h]

/-- Witness for `extract_prices_spec`: the one-token case at a concrete text. -/
theorem extract_prices_spec_witness :
    priceScan ("€5.00 each".data) = [500] ∧
    extract_prices "€5.00 each" = (some 500, none, percentSearch ("€5.00 each".data)) :=
  ⟨by decide, (extract_prices_spec.1 "€5.00 each").2.1 500 (by decide)⟩

/-- Every row the tile loop emits carries `needs_review = true` and
`publish = none`. -/
theorem famLoop_flags (p : PageDoc) (ctx : ExtractCtx) (conf : String) :
    ∀ tiles seen, ∀ r ∈ famLoop p ctx conf seen tiles,
      r.needs_review = true ∧ r.publish = none := by
  intro tiles
  induction tiles with
  | nil => simp [famLoop]
  | cons t rest ih =>
    intro seen r hr
    simp only [famLoop] at hr
    split at hr
    · exact ih _ r hr
    · split at hr
      · exact ih _ r hr
      · split at hr
        · exact ih _ r hr
        · rcases List.mem_cons.1 hr with rfl | h'
          · exact ⟨rfl, rfl⟩
          · exact ih _ r h'

/-- Every row the family search emits carries the default flags. -/
theorem famSearch_flags (p : PageDoc) (ctx : ExtractCtx) (conf : String) :
    ∀ fams, ∀ r ∈ famSearch p ctx conf fams,
      r.needs_review = true ∧ r.publish = none := by
  intro fams
  induction fams with
  | nil => simp [famSearch]
  | cons tiles rest ih =>
    intro r hr
    simp only [famSearch] at hr
    split at hr
    · exact ih r hr
    · split at hr
      · exact ih r hr
      · exact famLoop_flags p ctx conf _ _ r hr

/-- Claim C10: for every page (however degenerate), extraction yields at
least 1 and at most 12 rows, and every row has `needs_review = true` and
`publish = None`. -/
theorem extract_page_bounds (p : PageDoc) (ctx : ExtractCtx) :
    1 ≤ (extract_deals_from_page p ctx).length ∧
    (extract_deals_from_page p ctx).length ≤ 12 ∧
    ∀ r ∈ extract_deals_from_page p ctx, r.needs_review = true ∧ r.publish = none := by
  have hdef : extract_deals_from_page p ctx =
      (if (famSearch p ctx (confidence_from_text p.pageText) (tileFamilies p)).isEmpty
        then [fallbackDeal p ctx (confidence_from_text p.pageText)]
        else famSearch p ctx (confidence_from_text p.pageText) (tileFamilies p)).take 12 := rfl
  rw [hdef]
  by_cases hc : (famSearch p ctx (confidence_from_text p.pageText) (tileFamilies p)).isEmpty
  · rw [if_pos hc]
    refine ⟨by simp, by simp, ?_⟩
    intro r hr
    have hr' : r = fallbackDeal p ctx (confidence_from_text p.pageText) := by simpa using hr
    rcases hr' with rfl
    exact ⟨rfl, rfl⟩
  · rw [if_neg hc]
    have hne : famSearch p ctx (confidence_from_text p.pageText) (tileFamilies p) ≠ [] := by
      simpa [List.isEmpty_iff] using hc
    have hpos : 0 < (famSearch p ctx (confidence_from_text p.pageText) (tileFamilies p)).length :=
      List.length_pos.2 hne
    refine ⟨?_, ?_, ?_⟩
    · rw [List.length_take]
      omega
    · rw [List.length_take]
      omega
    · intro r hr
      exact famSearch_flags p ctx _ _ r (List.take_subset _ _ hr)

/-- Every nibble renders to a hex character. -/
theorem hexDigitChar_hex : ∀ k : Nat, isHexChar (hexDigitChar k) = true
  | 0 => rfl | 1 => rfl | 2 => rfl | 3 => rfl | 4 => rfl | 5 => rfl | 6 => rfl | 7 => rfl
  | 8 => rfl | 9 => rfl | 10 => rfl | 11 => rfl | 12 => rfl | 13 => rfl | 14 => rfl
  | _ + 15 => rfl

/-- A word renders to hex characters. -/
theorem wordHex_hex (w : Nat) : ∀ c ∈ wordHex w, isHexChar c = true := by
  simp [wordHex, hexDigitChar_hex]

/-- The `hexdigest()` string has exactly 40 characters. -/
theorem sha1Hex_length (msg : List Nat) : (sha1Hex msg).length = 40 := by
  unfold sha1Hex
  simp [String.length, wordHex]

/-- The `hexdigest()` string uses only lowercase hex characters. -/
theorem sha1Hex_hexchars (msg : List Nat) : ∀ c ∈ (sha1Hex msg).data, isHexChar c = true := by
  unfold sha1Hex
  intro c hc
  simp only [List.mem_append] at hc
  rcases hc with ((((h | h) | h) | h) | h) <;> exact wordHex_hex _ _ h

/-- Claim C9: the derived id is deterministic — equal lowercased domain,
equal normalized title, equal parsed price and equal trimmed URL give the
same id — and every id is a fixed-length (40-character) hex string. -/
theorem deterministic_id_spec (d1 t1 u1 d2 t2 u2 : String) (p1 p2 : Option PyFloat)
    (hd : pyLower d1 = pyLower d2) (ht : norm_title t1 = norm_title t2)
    (hp : p1 = p2) (hu : pyStrip u1 = pyStrip u2) :
    deterministic_id d1 t1 p1 u1 = deterministic_id d2 t2 p2 u2 ∧
    (deterministic_id d1 t1 p1 u1).length = 40 ∧
    ∀ c ∈ (deterministic_id d1 t1 p1 u1).data, isHexChar c = true := by
  unfold deterministic_id
  rw [hd, ht, hp, hu]
  exact ⟨rfl, sha1Hex_length _, sha1Hex_hexchars _⟩

/-- Witness for `deterministic_id_spec` at concrete differing spellings. -/
theorem deterministic_id_spec_witness :
    deterministic_id "Shop.IE" " Wid  get!! " none " https://shop.ie/sale " =
      deterministic_id "shop.ie" "wid get" none "https://shop.ie/sale" ∧
    (deterministic_id "shop.ie" "wid get" none "https://shop.ie/sale").length = 40 :=
  ⟨(deterministic_id_spec "Shop.IE" " Wid  get!! " " https://shop.ie/sale "
      "shop.ie" "wid get" "https://shop.ie/sale" none none
      (by decide) (by decide) rfl (by decide)).1,
   (deterministic_id_spec "shop.ie" "wid get" "https://shop.ie/sale"
      "shop.ie" "wid get" "https://shop.ie/sale" none none
      rfl rfl rfl rfl).2.1⟩

/-- Claim C8: the pipeline's field coercions return null sentinels on
unparsable input — except the extractor's store lat/lon parse, which raises
an uncaught `ValueError` on an unparsable non-sentinel value (the code bug
this claim trips over). -/
theorem field_coercions_spec :
    to_float (some "abc") = none ∧ to_float (some "") = none ∧
    to_float (some " nan ") = none ∧ to_float none = none ∧
    to_int (some "12abc") = none ∧ to_int (some "inf") = none ∧ to_int none = none ∧
    to_bool (some "maybe") = none ∧ to_bool none = none ∧
    parse_iso "not-a-date" = dtMin ∧
    latlonOfMeta none = .ok none ∧ latlonOfMeta (some "") = .ok none ∧
    latlonOfMeta (some "nan") = .ok none ∧ latlonOfMeta (some "53.35") = .ok (some (.fin 5335 (-2))) ∧
    latlonOfMeta (some "abc") = .error () := by
  decide

/-- The family search is the first family with at least four tiles and a
non-empty candidate list. -/
theorem famSearch_eq_find (p : PageDoc) (ctx : ExtractCtx) (conf : String) :
    ∀ fams, famSearch p ctx conf fams =
      match fams.find? (fun tiles =>
          decide (4 ≤ tiles.length) && !(famCandidates p ctx conf tiles).isEmpty) with
      | some tiles => famCandidates p ctx conf tiles
      | none => [] := by
  intro fams
  induction fams with
  | nil => rfl
  | cons tiles rest ih =>
    simp only [famSearch, List.find?]
    by_cases h4 : tiles.length < 4
    · have hcond : (decide (4 ≤ tiles.length) &&
          !(famCandidates p ctx conf tiles).isEmpty) = false := by
        simp [Nat.not_le.2 h4]
      rw [if_pos h4, hcond, ih]
    · rw [if_neg h4]
      have h4' : decide (4 ≤ tiles.length) = true := by
        simp [Nat.not_lt.1 h4]
      by_cases hc : (famCandidates p ctx conf tiles).isEmpty
      · have hcond : (decide (4 ≤ tiles.length) &&
            !(famCandidates p ctx conf tiles).isEmpty) = false := by
          simp [hc]
        rw [hcond, if_pos hc, ih]
      · have hcond : (decide (4 ≤ tiles.length) &&
            !(famCandidates p ctx conf tiles).isEmpty) = true := by
          simp [h4', hc]
        rw [hcond, if_neg hc]

/-- Claim C7 (amended): the family used is the first one with at least four
matching tiles AND at least one extractable candidate (a qualifying family
whose tiles all fail the noise/price/dedup filters is skipped, not used);
and a page on which every family has fewer than four matches yields exactly
the whole-page fallback row. -/
theorem extract_family_selection (p : PageDoc) (ctx : ExtractCtx) :
    (extract_deals_from_page p ctx =
      match (tileFamilies p).find? (fun tiles =>
          decide (4 ≤ tiles.length) &&
            !(famCandidates p ctx (confidence_from_text p.pageText) tiles).isEmpty) with
      | some tiles => (famCandidates p ctx (confidence_from_text p.pageText) tiles).take 12
      | none => [fallbackDeal p ctx (confidence_from_text p.pageText)]) ∧
    ((∀ tiles ∈ tileFamilies p, tiles.length < 4) →
      extract_deals_from_page p ctx = [fallbackDeal p ctx (confidence_from_text p.pageText)]) := by
  have main : extract_deals_from_page p ctx =
      match (tileFamilies p).find? (fun tiles =>
          decide (4 ≤ tiles.length) &&
            !(famCandidates p ctx (confidence_from_text p.pageText) tiles).isEmpty) with
      | some tiles => (famCandidates p ctx (confidence_from_text p.pageText) tiles).take 12
      | none => [fallbackDeal p ctx (confidence_from_text p.pageText)] := by
    have hdef : extract_deals_from_page p ctx =
        (if (famSearch p ctx (confidence_from_text p.pageText) (tileFamilies p)).isEmpty
          then [fallbackDeal p ctx (confidence_from_text p.pageText)]
          else famSearch p ctx (confidence_from_text p.pageText) (tileFamilies p)).take 12 := rfl
    rw [hdef, famSearch_eq_find p ctx (confidence_from_text p.pageText) (tileFamilies p)]
    rcases hf : (tileFamilies p).find? (fun tiles =>
        decide (4 ≤ tiles.length) &&
          !(famCandidates p ctx (confidence_from_text p.pageText) tiles).isEmpty) with _ | tiles
    · rw [hf]
      simp
    · rw [hf]
      have hp := List.find?_some hf
      simp only [Bool.and_eq_true] at hp
      have hne : famCandidates p ctx (confidence_from_text p.pageText) tiles ≠ [] := by
        have h2 := hp.2
        simp only [Bool.not_eq_true'] at h2
        intro hnil
        rw [hnil] at h2
        simp at h2
      simp [hne]
  refine ⟨main, ?_⟩
  intro hall
  rw [main]
  have : (tileFamilies p).find? (fun tiles =>
      decide (4 ≤ tiles.length) &&
        !(famCandidates p ctx (confidence_from_text p.pageText) tiles).isEmpty) = none := by
    rw [List.find?_eq_none]
    intro tiles htiles
    simp [Nat.not_le.2 (hall tiles htiles)]
  rw [this]

/-- Witness for `extract_family_selection`: a page where every family has
fewer than four tiles falls back to the single whole-page row. -/
theorem extract_family_selection_witness :
    extract_deals_from_page smallPage cexCtx =
      [fallbackDeal smallPage cexCtx (confidence_from_text smallPage.pageText)] :=
  (extract_family_selection smallPage cexCtx).2 (by decide)

/-- Claim C7 counterexample: on `cexPage` the first family has four matching
tiles (so, per the claim, it "is used"), yet it yields no candidate and the
emitted row comes from the second family instead — not from the first
family and not from the whole-page fallback. -/
theorem extract_family_claim_cex :
    4 ≤ cexPage.selProduct.length ∧
    famCandidates cexPage cexCtx (confidence_from_text cexPage.pageText) cexPage.selProduct = [] ∧
    extract_deals_from_page cexPage cexCtx =
      famCandidates cexPage cexCtx (confidence_from_text cexPage.pageText) cexPage.selTile ∧
    extract_deals_from_page cexPage cexCtx ≠
      [fallbackDeal cexPage cexCtx (confidence_from_text cexPage.pageText)] ∧
    (extract_deals_from_page cexPage cexCtx).map (fun r => r.title) = ["Fam2 Deal"] := by
  decide

/-- Claim C1 (amended): on an id collision the newcomer replaces the stored
row only when its `captured_at` compares strictly later; on equal timestamps
the earlier-arriving row is kept (not the later-arriving one). Unparsable
timestamps parse to `datetime.min` — the least offset-naive value — so a row
with a valid offset-naive timestamp beats one without, but comparing an
offset-aware timestamp against an unparsable one raises `TypeError`, which
aborts the merge. -/
theorem merge_latest_wins (now : String) (r1 r2 : CsvRow)
    (hid : (buildItem now r1).id = (buildItem now r2).id) :
    (mergeFold [] [buildItem now r1, buildItem now r2] =
      match pyDtGt (parse_iso (buildItem now r2).captured_at)
          (parse_iso (buildItem now r1).captured_at) with
      | .error e => .error e
      | .ok true => .ok [((buildItem now r1).id, buildItem now r2)]
      | .ok false => .ok [((buildItem now r1).id, buildItem now r1)]) ∧
    (∀ s, pyFromIso (pyReplace s "Z" "+00:00") = none → parse_iso s = dtMin) ∧
    (∀ d : PyDatetime, dtKey dtMin ≤ dtKey d) ∧
    (∀ d : PyDatetime, d.tzMin = none → pyDtGt d dtMin = .ok (decide (0 < dtKey d))) ∧
    (∀ (d : PyDatetime) (z : Int), d.tzMin = some z → pyDtGt d dtMin = .error ()) := by
  have hfound : ∀ (m : List (String × Item)) (it ex : Item), dictGet m it.id = some ex →
      mergeStep m it = (pyDtGt (parse_iso it.captured_at) (parse_iso ex.captured_at)).bind
        (fun later => if later then .ok (dictSet m it.id it) else .ok m) := by
    intro m it ex hg
    unfold mergeStep
    rw [hg]
    rfl
  refine ⟨?_, ?_, ?_, ?_, ?_⟩
  · have hget : dictGet [((buildItem now r1).id, buildItem now r1)] (buildItem now r2).id
        = some (buildItem now r1) := by
      simp [dictGet, hid]
    have hset : dictSet [((buildItem now r1).id, buildItem now r1)] (buildItem now r2).id
        (buildItem now r2) = [((buildItem now r1).id, buildItem now r2)] := by
      simp [dictSet, hid]
    have hstep : mergeFold [] [buildItem now r1, buildItem now r2] =
        mergeStep [((buildItem now r1).id, buildItem now r1)] (buildItem now r2) >>= fun m2 =>
          mergeFold m2 [] := rfl
    rw [hstep, hfound _ _ _ hget]
    rcases hgt : pyDtGt (parse_iso (buildItem now r2).captured_at)
        (parse_iso (buildItem now r1).captured_at) with e | b
    · rfl
    · cases b
      · rfl
      · show Except.ok (dictSet [((buildItem now r1).id, buildItem now r1)]
            (buildItem now r2).id (buildItem now r2)) = _
        rw [hset]
  · intro s h
    simp [parse_iso, h]
  · intro d
    have h0 : dtKey dtMin = 0 := rfl
    rw [h0]
    exact Nat.zero_le _
  · intro d hd
    unfold pyDtGt
    rw [hd]
    rfl
  · intro d z hd
    unfold pyDtGt
    rw [hd]
    rfl

/-- Witness for `merge_latest_wins`: with a January and a June capture on
the same id, the June row is the one retained. -/
theorem merge_latest_wins_witness :
    mergeFold [] [buildItem c1now (mkRawRow "A" "2024-01-01T00:00:00+00:00"),
                  buildItem c1now (mkRawRow "B" "2024-06-01T00:00:00+00:00")] =
      .ok [((buildItem c1now (mkRawRow "A" "2024-01-01T00:00:00+00:00")).id,
            buildItem c1now (mkRawRow "B" "2024-06-01T00:00:00+00:00"))] := by
  have h := (merge_latest_wins c1now (mkRawRow "A" "2024-01-01T00:00:00+00:00")
      (mkRawRow "B" "2024-06-01T00:00:00+00:00") (by decide)).1
  rw [h]
  decide

/-- Claim C1 counterexample: two rows with identical identity fields and
identical `captured_at` timestamps. The claim says the later-arriving row
wins such a tie; the code keeps the earlier-arriving row (`store_name =
"First"`), because replacement happens only on a strictly later timestamp. -/
theorem merge_tie_cex :
    (buildItem c1now (mkRawRow "First" c1cap)).id =
      (buildItem c1now (mkRawRow "Second" c1cap)).id ∧
    (buildItem c1now (mkRawRow "First" c1cap)).captured_at =
      (buildItem c1now (mkRawRow "Second" c1cap)).captured_at ∧
    exportItems c1now [mkRawRow "First" c1cap, mkRawRow "Second" c1cap] =
      .ok [buildItem c1now (mkRawRow "First" c1cap)] ∧
    (buildItem c1now (mkRawRow "First" c1cap)).store_name = "First" ∧
    (buildItem c1now (mkRawRow "Second" c1cap)).store_name = "Second" := by
  decide

/-- A row with a present, non-empty `captured_at` yields the same item
whatever the run's clock reads. -/
theorem buildItem_now_indep (n1 n2 : String) (r : CsvRow)
    (h1 : r.captured_at ≠ none) (h2 : r.captured_at ≠ some "") :
    buildItem n1 r = buildItem n2 r := by
  rcases hc : r.captured_at with _ | s
  · exact absurd hc h1
  · have hs : ¬ s = "" := by
      intro h
      rw [h] at hc
      exact h2 hc
    unfold buildItem
    simp [buildItem.orElseStr, hc, hs]

/-- The considered rows are drawn from the input rows. -/
theorem consideredRows_subset (rows : List CsvRow) :
    ∀ r ∈ consideredRows rows, r ∈ rows := by
  intro r hr
  unfold consideredRows at hr
  split at hr
  · exact (List.mem_filter.1 hr).1
  · exact hr

/-- The order `lexLe` is total. -/
theorem lexLe_total : ∀ a b : List Char, lexLe a b = true ∨ lexLe b a = true := by
  intro a
  induction a with
  | nil => intro b; exact Or.inl rfl
  | cons c cs ih =>
    intro b
    cases b with
    | nil => exact Or.inr rfl
    | cons d ds =>
      simp only [lexLe]
      rcases Nat.lt_trichotomy c.toNat d.toNat with h | h | h
      · left
        rw [if_pos h]
      · rw [h]
        simp only [Nat.lt_irrefl, if_neg (Nat.lt_irrefl _)]
        exact ih ds
      · right
        rw [if_pos h]

/-- The order `lexLe` is transitive. -/
theorem lexLe_trans : ∀ a b c : List Char,
    lexLe a b = true → lexLe b c = true → lexLe a c = true := by
  intro a
  induction a with
  | nil => intro b c _ _; rfl
  | cons x xs ih =>
    intro b c h1 h2
    cases b with
    | nil => simp [lexLe] at h1
    | cons y ys =>
      cases c with
      | nil => simp [lexLe] at h2
      | cons z zs =>
        simp only [lexLe] at h1 h2 ⊢
        by_cases hxy : x.toNat < y.toNat
        · by_cases hyz : y.toNat < z.toNat
          · rw [if_pos (Nat.lt_trans hxy hyz)]
          · by_cases hzy : z.toNat < y.toNat
            · rw [if_neg hyz, if_pos hzy] at h2
              cases h2
            · have hyz' : y.toNat = z.toNat := Nat.le_antisymm (Nat.not_lt.1 hzy) (Nat.not_lt.1 hyz)
              rw [if_pos (hyz' ▸ hxy)]
        · by_cases hyx : y.toNat < x.toNat
          · rw [if_neg hxy, if_pos hyx] at h1
            cases h1
          · have hxy' : x.toNat = y.toNat := Nat.le_antisymm (Nat.not_lt.1 hyx) (Nat.not_lt.1 hxy)
            rw [if_neg hxy, if_neg hyx] at h1
            by_cases hyz : y.toNat < z.toNat
            · rw [if_pos (hxy' ▸ hyz)]
            · by_cases hzy : z.toNat < y.toNat
              · rw [if_neg hyz, if_pos hzy] at h2
                cases h2
              · rw [if_neg hyz, if_neg hzy] at h2
                rw [if_neg (hxy' ▸ hyz), if_neg (fun hh => hzy (hxy' ▸ hh))]
                exact ih ys zs h1 h2

/-- The order `idLe` is total. -/
theorem idLe_total (a b : Item) : idLe a b = true ∨ idLe b a = true :=
  lexLe_total a.id.data b.id.data

/-- The order `idLe` is transitive. -/
theorem idLe_trans (a b c : Item) (h1 : idLe a b = true) (h2 : idLe b c = true) :
    idLe a c = true :=
  lexLe_trans a.id.data b.id.data c.id.data h1 h2

/-- Claim C2: with `captured_at` present and non-empty on every row (as the
raw-deal data model guarantees), the merger's published items are a pure
function of the raw table — two runs at different clock readings produce
identical items, hence byte-identical item serializations — and the emitted
items are sorted by the derived id ascending whatever the input order. The
only published byte outside the items is the `generated_at` wall-clock
stamp, which the claim's own parenthetical excludes. -/
theorem export_run_stable (rows : List CsvRow) (now1 now2 : String)
    (hcap : ∀ r ∈ rows, r.captured_at ≠ none ∧ r.captured_at ≠ some "") :
    exportItems now1 rows = exportItems now2 rows ∧
    (∀ items, exportItems now1 rows = .ok items →
      items.Pairwise (fun a b => idLe a b = true)) := by
  constructor
  · unfold exportItems
    have hmap : (consideredRows rows).map (buildItem now1)
        = (consideredRows rows).map (buildItem now2) := by
      apply List.map_congr_left
      intro r hr
      have hr' := hcap r (consideredRows_subset rows r hr)
      exact buildItem_now_indep now1 now2 r hr'.1 hr'.2
    rw [hmap]
  · intro items h
    unfold exportItems at h
    rcases hm : mergeFold [] ((consideredRows rows).map (buildItem now1)) with e | m
    · rw [hm] at h
      cases h
    · rw [hm] at h
      have hitems : items = pySort idLe (m.map (·.2)) := by
        have : Except.ok (ε := Unit) (pySort idLe (m.map (·.2))) = .ok items := h
        injection this with h'
        exact h'.symm
      rw [hitems]
      exact pairwise_pySort idLe idLe_total idLe_trans _

/-- Witness for `export_run_stable`: two different run clocks, same items. -/
theorem export_run_stable_witness :
    exportItems "2025-01-01T00:00:00+00:00" c2rows =
      exportItems "2025-02-02T00:00:00+00:00" c2rows :=
  (export_run_stable c2rows "2025-01-01T00:00:00+00:00" "2025-02-02T00:00:00+00:00"
    (by decide)).1

/-- Members of `dictSet m k v` are the new pair or old members. -/
theorem mem_dictSet {α : Type} (m : List (String × α)) (k : String) (v : α) :
    ∀ q ∈ dictSet m k v, q = (k, v) ∨ q ∈ m := by
  induction m with
  | nil =>
    intro q hq
    simp only [dictSet, List.mem_singleton] at hq
    exact Or.inl hq
  | cons p rest ih =>
    obtain ⟨k0, v0⟩ := p
    intro q hq
    simp only [dictSet] at hq
    split at hq
    · rename_i heq
      rcases List.mem_cons.1 hq with rfl | hq'
      · exact Or.inl (by rw [heq])
      · exact Or.inr (List.mem_cons_of_mem _ hq')
    · rcases List.mem_cons.1 hq with rfl | hq'
      · exact Or.inr (List.mem_cons_self _ _)
      · rcases ih q hq' with h | h
        · exact Or.inl h
        · exact Or.inr (List.mem_cons_of_mem _ h)

/-- A successful merge step stores the newcomer's id, preserves stored
keys, and adds only the pair `(it.id, it)`. -/
theorem mergeStep_get (m : List (String × Item)) (it : Item) (m' : List (String × Item))
    (h : mergeStep m it = .ok m') :
    (∃ w, dictGet m' it.id = some w) ∧
    (∀ k, (∃ v, dictGet m k = some v) → ∃ w, dictGet m' k = some w) ∧
    (∀ q ∈ m', q = (it.id, it) ∨ q ∈ m) := by
  unfold mergeStep at h
  rcases hg : dictGet m it.id with _ | ex
  · rw [hg] at h
    injection h with h'
    subst h'
    refine ⟨⟨it, dictGet_dictSet_self m it.id it⟩, ?_, mem_dictSet m it.id it⟩
    intro k hk
    by_cases hkeq : k = it.id
    · subst hkeq
      exact ⟨it, dictGet_dictSet_self m _ it⟩
    · rcases hk with ⟨v, hv⟩
      refine ⟨v, ?_⟩
      rw [dictGet_dictSet_other m it.id k it hkeq]
      exact hv
  · rw [hg] at h
    have h2 : (pyDtGt (parse_iso it.captured_at) (parse_iso ex.captured_at)).bind
        (fun later => if later then .ok (dictSet m it.id it) else .ok m) = .ok m' := h
    rcases hgt : pyDtGt (parse_iso it.captured_at) (parse_iso ex.captured_at) with e | b
    · rw [hgt] at h2
      have h3 : (Except.error e : Except Unit (List (String × Item))) = .ok m' := h2
      exact Except.noConfusion h3
    · rw [hgt] at h2
      cases b
      · have h3 : (Except.ok m : Except Unit (List (String × Item))) = .ok m' := h2
        injection h3 with h4
        subst h4
        exact ⟨⟨ex, hg⟩, fun k hk => hk, fun q hq => Or.inr hq⟩
      · have h3 : (Except.ok (dictSet m it.id it) : Except Unit (List (String × Item)))
            = .ok m' := h2
        injection h3 with h4
        subst h4
        refine ⟨⟨it, dictGet_dictSet_self m it.id it⟩, ?_, mem_dictSet m it.id it⟩
        intro k hk
        by_cases hkeq : k = it.id
        · subst hkeq
          exact ⟨it, dictGet_dictSet_self m _ it⟩
        · rcases hk with ⟨v, hv⟩
          refine ⟨v, ?_⟩
          rw [dictGet_dictSet_other m it.id k it hkeq]
          exact hv

/-- A successful merge fold preserves stored keys, stores every processed
item's id, and every stored pair either keys its own value's id or was
already present. -/
theorem mergeFold_get (its : List Item) : ∀ (m m' : List (String × Item)),
    mergeFold m its = .ok m' →
    (∀ k, (∃ v, dictGet m k = some v) → ∃ w, dictGet m' k = some w) ∧
    (∀ it ∈ its, ∃ w, dictGet m' it.id = some w) ∧
    (∀ q ∈ m', q.2.id = q.1 ∨ q ∈ m) := by
  induction its with
  | nil =>
    intro m m' h
    injection h with h'
    subst h'
    exact ⟨fun k hk => hk, by simp, fun q hq => Or.inr hq⟩
  | cons it rest ih =>
    intro m m' h
    have h2 : (mergeStep m it).bind (fun m1 => mergeFold m1 rest) = .ok m' := h
    rcases hs : mergeStep m it with e | m1
    · rw [hs] at h2
      have h3 : (Except.error e : Except Unit (List (String × Item))) = .ok m' := h2
      exact Except.noConfusion h3
    · rw [hs] at h2
      have h3 : mergeFold m1 rest = .ok m' := h2
      obtain ⟨hins, hpres, hmem⟩ := mergeStep_get m it m1 hs
      obtain ⟨ihpres, ihits, ihinv⟩ := ih m1 m' h3
      refine ⟨?_, ?_, ?_⟩
      · intro k hk
        exact ihpres k (hpres k hk)
      · intro j hj
        rcases List.mem_cons.1 hj with rfl | hj'
        · exact ihpres j.id hins
        · exact ihits j hj'
      · intro q hq
        rcases ihinv q hq with hid | hq1
        · exact Or.inl hid
        · rcases hmem q hq1 with rfl | hq2
          · exact Or.inl rfl
          · exact Or.inr hq2

/-- Claim C5: when a publish column exists and some row parses
publish-true, exactly the publish-true rows are considered (false/empty
excluded); when no row parses publish-true, every row is considered; and
every considered row's derived id appears among the published items of a
successful run. -/
theorem publish_filter_spec (rows : List CsvRow) (now : String) :
    (shouldFilterPublish rows = true →
      consideredRows rows = rows.filter (fun r => to_bool r.publish = some true)) ∧
    ((∀ r ∈ rows, ¬ to_bool r.publish = some true) → consideredRows rows = rows) ∧
    (∀ items, exportItems now rows = .ok items →
      ∀ r ∈ consideredRows rows, ∃ it ∈ items, it.id = (buildItem now r).id) := by
  refine ⟨?_, ?_, ?_⟩
  · intro h
    unfold consideredRows
    rw [if_pos h]
  · intro h
    have hany : rows.any (fun r => to_bool r.publish = some true) = false := by
      rw [List.any_eq_false]
      intro r hr
      simpa using h r hr
    have hflt : shouldFilterPublish rows = false := by
      unfold shouldFilterPublish
      rw [hany]
      simp
    unfold consideredRows
    rw [if_neg (by simp [hflt])]
  · intro items h r hr
    have h2 : (mergeFold [] ((consideredRows rows).map (buildItem now))).bind
        (fun latest => Except.ok (pySort idLe (latest.map (·.2)))) = .ok items := h
    rcases hm : mergeFold [] ((consideredRows rows).map (buildItem now)) with e | m
    · rw [hm] at h2
      have h3 : (Except.error e : Except Unit (List Item)) = .ok items := h2
      exact Except.noConfusion h3
    · rw [hm] at h2
      have h3 : (Except.ok (pySort idLe (m.map (·.2))) : Except Unit (List Item))
          = .ok items := h2
      injection h3 with h4
      obtain ⟨_, hits, hinv⟩ := mergeFold_get ((consideredRows rows).map (buildItem now)) [] m hm
      obtain ⟨w, hw⟩ := hits (buildItem now r) (List.mem_map_of_mem _ hr)
      have hqm := dictGet_mem m _ w hw
      have hwid : w.id = (buildItem now r).id := by
        rcases hinv ((buildItem now r).id, w) hqm with hq | hq
        · exact hq
        · simp at hq
      refine ⟨w, ?_, hwid⟩
      rw [← h4, mem_pySort]
      exact List.mem_map.2 ⟨((buildItem now r).id, w), hqm, rfl⟩

/-- Witness for `publish_filter_spec`: filtering rows, non-filtering rows,
and a considered row's id found among the published items. -/
theorem publish_filter_spec_witness :
    consideredRows c5rowsA = c5rowsA.filter (fun r => to_bool r.publish = some true) ∧
    consideredRows c5rowsB = c5rowsB ∧
    ∃ it ∈ c5itemsB, it.id = (buildItem "x" c5rowB1).id :=
  ⟨(publish_filter_spec c5rowsA "x").1 (by decide),
   (publish_filter_spec c5rowsB "x").2.1 (by decide),
   (publish_filter_spec c5rowsB "x").2.2 c5itemsB (by decide) c5rowB1 (by decide)⟩

/-- The keep loop emits at most `maxPer - kept` rows. -/
theorem keepLoop_length (maxPer : Nat) (sn cat web dom now : String) :
    ∀ (cands : List (String × Nat × String)) (kept : Nat) (seen : List String),
      (keepLoop maxPer sn cat web dom now cands kept seen).1.length ≤ maxPer - kept := by
  intro cands
  induction cands with
  | nil =>
    intro kept seen
    simp [keepLoop]
  | cons c rest ih =>
    intro kept seen
    obtain ⟨u, sc, via⟩ := c
    simp only [keepLoop]
    split
    · simp
    · rename_i hlt
      split
      · exact ih kept seen
      · rcases hk : keepLoop maxPer sn cat web dom now rest (kept + 1) (u :: seen)
          with ⟨rs, seen'⟩
        simp only [hk, List.length_cons]
        have hb := ih (kept + 1) (u :: seen)
        rw [hk] at hb
        simp only at hb
        omega

/-- One store contributes at most the per-store cap. -/
theorem storeStep_length (env : PromoEnv) (maxPer : Nat) (now : String)
    (s : StoreRow) (seen : List String) :
    (storeStep env maxPer now s seen).1.length ≤ maxPer := by
  unfold storeStep
  have := keepLoop_length maxPer (pyStrip (s.name.getD "")) (pyStrip (s.category.getD ""))
    (normalize_url (s.website.getD "")) (domain_of (normalize_url (s.website.getD ""))) now
    (pySort candDescLe (storeCandidates env (normalize_url (s.website.getD "")))) 0 seen
  simpa using this

/-- The store loop's total output is bounded by the global cap plus one
store's contribution. -/
theorem promoLoop_total (env : PromoEnv) (maxPer maxPages : Nat) (now : String) :
    ∀ (stores : List StoreRow) (rows : List PromoUrlRow) (seen : List String),
      rows.length ≤ maxPages →
      (promoLoop env maxPer maxPages now stores rows seen).length ≤ maxPages + maxPer := by
  intro stores
  induction stores with
  | nil =>
    intro rows seen h
    simpa [promoLoop] using le_trans h (Nat.le_add_right _ _)
  | cons s rest ih =>
    intro rows seen h
    simp only [promoLoop]
    split
    · exact ih rows seen h
    · rcases hk : storeStep env maxPer now s seen with ⟨newRows, seen'⟩
      simp only [hk]
      have hlen : newRows.length ≤ maxPer := by
        have := storeStep_length env maxPer now s seen
        rw [hk] at this
        simpa using this
      split
      · rename_i hcap
        simp only [List.length_append]
        omega
      · rename_i hcap
        apply ih
        rw [List.length_append] at hcap
        rw [List.length_append]
        omega

/-- Once the accumulated rows have reached the global cap, appending more
stores to the input changes nothing: they are never processed. -/
theorem promoLoop_stops (env : PromoEnv) (maxPer maxPages : Nat) (now : String) :
    ∀ (stores extra : List StoreRow) (rows : List PromoUrlRow) (seen : List String),
      rows.length < maxPages →
      maxPages ≤ (promoLoop env maxPer maxPages now stores rows seen).length →
      promoLoop env maxPer maxPages now (stores ++ extra) rows seen =
        promoLoop env maxPer maxPages now stores rows seen := by
  intro stores
  induction stores with
  | nil =>
    intro extra rows seen hlt hge
    simp only [promoLoop] at hge
    omega
  | cons s rest ih =>
    intro extra rows seen hlt hge
    simp only [List.cons_append, promoLoop] at hge ⊢
    by_cases hskip : skipStore s = true
    · rw [if_pos hskip] at hge
      rw [if_pos hskip, if_pos hskip]
      exact ih extra rows seen hlt hge
    · rw [if_neg hskip] at hge
      rw [if_neg hskip, if_neg hskip]
      rcases hk : storeStep env maxPer now s seen with ⟨newRows, seen'⟩
      rw [hk] at hge
      dsimp only at hge ⊢
      by_cases hcap : maxPages ≤ (rows ++ newRows).length
      · simp only [hcap, ite_true]
      · simp only [hcap, ite_false] at hge ⊢
        exact ih extra (rows ++ newRows) seen' (Nat.not_le.1 hcap) hge

/-- Claim C6 (amended): each store contributes at most the per-store cap;
the total output is bounded by the global cap plus one store's contribution
(the global cap is checked only between stores, so the store that crosses
it may overshoot by up to the per-store cap); and once the total has
reached the global cap, no further store is processed at all. -/
theorem promo_caps_spec (env : PromoEnv) (maxPer maxPages : Nat) (now : String) :
    (∀ (s : StoreRow) (seen : List String),
      (storeStep env maxPer now s seen).1.length ≤ maxPer) ∧
    (∀ stores : List StoreRow,
      (promoMain env maxPer maxPages now stores).length ≤ maxPages + maxPer) ∧
    (∀ stores extra : List StoreRow, 1 ≤ maxPages →
      maxPages ≤ (promoMain env maxPer maxPages now stores).length →
      promoMain env maxPer maxPages now (stores ++ extra) =
        promoMain env maxPer maxPages now stores) := by
  refine ⟨fun s seen => storeStep_length env maxPer now s seen, ?_, ?_⟩
  · intro stores
    exact promoLoop_total env maxPer maxPages now stores [] [] (Nat.zero_le _)
  · intro stores extra h1 hge
    exact promoLoop_stops env maxPer maxPages now stores extra [] [] (by simpa using h1) hge

/-- Witness for `promo_caps_spec`: with the global cap already reached by
the first store, a second store is never processed. -/
theorem promo_caps_spec_witness :
    promoMain c6env 25 1 "t" ([c6store] ++ [c6store2]) = promoMain c6env 25 1 "t" [c6store] :=
  (promo_caps_spec c6env 25 1 "t").2.2 [c6store] [c6store2] (by decide) (by decide)

/-- Claim C6 counterexample: with the global cap `MAX_PAGES_PER_RUN = 1`
and per-store cap 25, a single store (all its fetches failing, so only the
17 common-path candidates exist) emits 17 rows — the total output exceeds
the global cap, because the cap is only checked after a whole store. -/
theorem promo_cap_cex :
    (promoMain c6env 25 1 "t" [c6store]).length = 17 ∧
    1 < (promoMain c6env 25 1 "t" [c6store]).length := by
  decide

end IrelandDeals
